import Mathlib

/-!
Verification of the patch lifecycle manager in `src/patcher.ts`
(`createPatch`, `commitPatch`, `applyPatch`, `revertPatch`).

The filesystem is modelled as an association list from path strings to
entries (regular file, directory, symbolic link).  Paths are normalised to
absolute form by prefixing the working directory `cwd`; symbolic-link
targets are resolved relative to the directory containing the link, as in
POSIX.  Each operation is translated statement-by-statement from the
TypeScript source; fallible filesystem primitives return `Except`, and each
operation returns the final filesystem together with `Option Err`
(`none` = success), since a thrown error does not roll back earlier writes.

The external `diff` library (`createPatch` / `parsePatch` / `applyPatch`,
imported in the source as `diffCreate` / `parsePatch` / `diffApply`) is not
part of this repository; it is modelled from the spec as a black-box
capability ("compute unified diff of two texts", "apply a unified diff to a
text with fuzz tolerance").
-/

namespace FilePatch

/-! ## Character-list utilities -/

/-- Split a list of characters at every occurrence of `c`.  The result is
always non-empty and none of the pieces contains `c`. -/
def splitOnChar (c : Char) : List Char → List (List Char)
  | [] => [[]]
  | x :: xs =>
    if x = c then [] :: splitOnChar c xs
    else
      match splitOnChar c xs with
      | [] => [[x]]
      | y :: ys => (x :: y) :: ys

/-- Join pieces with the separator character `c`; inverse of `splitOnChar`. -/
def joinChar (c : Char) : List (List Char) → List Char
  | [] => []
  | [l] => l
  | l :: l₂ :: ls => l ++ c :: joinChar c (l₂ :: ls)

/-- Boolean test that `p` is an initial segment of `s`. -/
def isPre : List Char → List Char → Bool
  | c :: cs, d :: ds => (c == d) && isPre cs ds
  | [], _ => true
  | _, _ => false

def ofChars (l : List Char) : String := String.mk l

/-- Decimal digit to character. -/
def digitChar : Nat → Char
  | 0 => '0'
  | 1 => '1'
  | 2 => '2'
  | 3 => '3'
  | 4 => '4'
  | 5 => '5'
  | 6 => '6'
  | 7 => '7'
  | 8 => '8'
  | _ => '9'

/-- Digits of `n`, most significant first; `fuel` bounds the recursion depth
(`fuel = n` always suffices). -/
def natReprAux : Nat → Nat → List Char
  | 0, _ => []
  | fuel + 1, n => if n = 0 then [] else natReprAux fuel (n / 10) ++ [digitChar (n % 10)]

/-- Decimal rendering of a natural number. -/
def natRepr (n : Nat) : String :=
  if n = 0 then "0" else ofChars (natReprAux n n)

/-! ## String utilities -/

/-- Lines of a string, split at newline characters. -/
def strLines (s : String) : List String := (splitOnChar '\n' s.data).map ofChars

/-- Join lines with newline characters; inverse of `strLines`. -/
def strUnlines (ls : List String) : String := ofChars (joinChar '\n' (ls.map String.data))

/-- Boolean test that the string `p` is an initial segment of `s`. -/
def strHasPre (p s : String) : Bool := isPre p.data s.data

/-- Remove the first character of a string. -/
def strTail (s : String) : String := ofChars s.data.tail

/-! ## Model of the external diff library

The `diff` npm package is outside this repository and excluded by the spec;
the following definitions realise the black-box capability the spec assigns
to it. -/

/-- Modelled from the spec: one hunk of a parsed unified diff, with its
recorded starting line on the original side and its prefixed body lines
(`-` removed, `+` added, ` ` context). -/
structure Hunk where
  oldStart : Nat
  lines : List String
deriving DecidableEq

/-- Modelled from the spec: a parsed unified-diff document for one file. -/
structure Patch where
  hunks : List Hunk
deriving DecidableEq

/-- Hunk-header line of the produced unified diff. -/
def hunkHeader (n m : Nat) : String :=
  "@@ -1," ++ natRepr n ++ " +1," ++ natRepr m ++ " @@"

/-- The separator line of the unified-diff header: 67 equal signs. -/
def sepLine : String := ofChars (List.replicate 67 '=')

/-- Modelled from the spec: "compute unified diff of two texts".  Produces a
standard unified-diff document whose display label is `fileName` and whose
two side labels are `oldHeader` and `newHeader`, containing a single hunk
that rewrites the whole old text into the whole new text. -/
def diffCreate (fileName oldStr newStr oldHeader newHeader : String) : String :=
  let oldLines := strLines oldStr
  let newLines := strLines newStr
  strUnlines
    ([ "Index: " ++ fileName,
       sepLine,
       "--- " ++ fileName ++ "\t" ++ oldHeader,
       "+++ " ++ fileName ++ "\t" ++ newHeader,
       hunkHeader oldLines.length newLines.length ]
     ++ oldLines.map (fun l => "-" ++ l)
     ++ newLines.map (fun l => "+" ++ l)
     ++ [""])

/-- Hunk-body lines carry one of the unified-diff markers. -/
def isHunkBodyLine (l : String) : Bool :=
  strHasPre "-" l || strHasPre "+" l || strHasPre " " l || strHasPre "\\" l

/-- Leading decimal number of a character list. -/
def parseNum (l : List Char) : Nat :=
  (l.takeWhile fun c => c.isDigit).foldl (fun a c => a * 10 + (c.toNat - 48)) 0

/-- Intermediate state of the lenient unified-diff parser: hunk-body lines
read so far, hunks of the current file section, completed sections. -/
structure PPState where
  body : List String
  hunks : List Hunk
  patches : List Patch
deriving DecidableEq

/-- One parsing step, consuming the line `l` in a right fold. -/
def ppStep (l : String) (st : PPState) : PPState :=
  if strHasPre "Index: " l then
    { body := [], hunks := [], patches := { hunks := st.hunks } :: st.patches }
  else if strHasPre "@@ -" l then
    { body := [],
      hunks := { oldStart := parseNum (l.data.drop 4), lines := st.body } :: st.hunks,
      patches := st.patches }
  else if isHunkBodyLine l then
    { st with body := l :: st.body }
  else
    { st with body := [] }

/-- Modelled from the spec: lenient parsing of a unified-diff document into
one structured patch per file section (malformed headers do not abort
parsing; unrecognised lines are skipped). -/
def parsePatch (doc : String) : List Patch :=
  let st := (strLines doc).foldr ppStep { body := [], hunks := [], patches := [] }
  match st.hunks with
  | [] => st.patches
  | hs => { hunks := hs } :: st.patches

/-- Classify one hunk-body line for the original side: removed and context
lines belong to it, unprefixed. -/
def oldSideF (l : String) : Option String :=
  if strHasPre "-" l || strHasPre " " l then some (strTail l) else none

/-- Classify one hunk-body line for the modified side: added and context
lines belong to it, unprefixed. -/
def newSideF (l : String) : Option String :=
  if strHasPre "+" l || strHasPre " " l then some (strTail l) else none

/-- Original-side lines of a hunk (removed and context lines, unprefixed). -/
def hunkOldLines (h : Hunk) : List String := h.lines.filterMap oldSideF

/-- Modified-side lines of a hunk (added and context lines, unprefixed). -/
def hunkNewLines (h : Hunk) : List String := h.lines.filterMap newSideF

/-- Candidate match positions for a hunk, by increasing distance from its
recorded position, up to the fuzz tolerance. -/
def fuzzCandidates (start : Nat) : Nat → List Nat
  | 0 => [start]
  | f + 1 => fuzzCandidates start f ++ [start - (f + 1), start + (f + 1)]

/-- First position within the fuzz window where the hunk's original-side
lines occur in the content. -/
def findPos (ls old : List String) (start fuzz : Nat) : Option Nat :=
  (fuzzCandidates start fuzz).find? fun p => decide ((ls.drop p).take old.length = old)

/-- Apply one hunk to a line list, allowing it to match up to `fuzz` lines
away from its recorded position. -/
def applyHunk (ls : List String) (h : Hunk) (fuzz : Nat) : Option (List String) :=
  match findPos ls (hunkOldLines h) (h.oldStart - 1) fuzz with
  | none => none
  | some p => some (ls.take p ++ hunkNewLines h ++ ls.drop (p + (hunkOldLines h).length))

/-- Apply all hunks of a patch in order; fail if any hunk fails to match. -/
def applyHunks (ls : List String) (hs : List Hunk) (fuzz : Nat) : Option (List String) :=
  match hs with
  | [] => some ls
  | h :: rest =>
    match applyHunk ls h fuzz with
    | none => none
    | some ls₁ => applyHunks ls₁ rest fuzz

/-- Modelled from the spec: "apply a unified diff to a text with fuzz
tolerance"; `none` means no match was found even with the tolerance. -/
def diffApply (content : String) (p : Patch) (fuzz : Nat) : Option String :=
  match applyHunks (strLines content) p.hunks fuzz with
  | none => none
  | some ls => some (strUnlines ls)

/-! ## Filesystem model -/

deriving instance DecidableEq for Except

/-- Filesystem entry: regular file with text content, directory, or
symbolic link storing its target string verbatim. -/
inductive Entry where
  | file (content : String)
  | dir
  | symlink (target : String)
deriving DecidableEq

/-- Abstract error kinds of the spec (§7). -/
inductive Err where
  | notFound
  | ioError
  | applyConflict
deriving DecidableEq

/-- Filesystem state: association list from absolute paths to entries. -/
abbrev FS := List (String × Entry)

def fsFind : FS → String → Option Entry
  | [], _ => none
  | (q, e) :: fs, p => if q = p then some e else fsFind fs p

def fsSet : FS → String → Entry → FS
  | [], p, e => [(p, e)]
  | (q, d) :: fs, p, e => if q = p then (p, e) :: fs else (q, d) :: fsSet fs p e

def fsRemove : FS → String → FS
  | [], _ => []
  | (q, d) :: fs, p => if q = p then fsRemove fs p else (q, d) :: fsRemove fs p

/-- Normalise a path against the working directory, as `path.resolve` and
the process-relative interpretation of plain `fs` calls do.  Paths with
`.`/`..` components are outside the model. -/
def absPath (cwd p : String) : String :=
  if strHasPre "/" p then p else cwd ++ "/" ++ p

/-- Directory part of a path: everything before the last separator
(`""` when the path has no separator). -/
def dirname (p : String) : String :=
  ofChars (joinChar '/' ((splitOnChar '/' p.data).dropLast))

/-- Base name of a path: everything after the last separator. -/
def basename (p : String) : String :=
  ofChars ((splitOnChar '/' p.data).getLastD [])

/-- POSIX resolution of a symbolic-link target: an absolute target stands
alone, a relative target is interpreted relative to the directory
containing the link. -/
def resolveLink (linkAbs target : String) : String :=
  if strHasPre "/" target then target
  else
    let d := dirname linkAbs
    if d = "" then target else d ++ "/" ++ target

/-- Entry a path refers to after following a symbolic link at the path
itself (link chains of length > 1 do not arise in this development). -/
def readEntry (cwd : String) (fs : FS) (p : String) : Option Entry :=
  match fsFind fs (absPath cwd p) with
  | some (Entry.symlink t) => fsFind fs (resolveLink (absPath cwd p) t)
  | e => e

/-- Model of `fs.readFile(p, 'utf-8')`: follows a symbolic link; a missing
or unreadable entry is the spec's `NotFoundError`. -/
def readFile (cwd : String) (fs : FS) (p : String) : Except Err String :=
  match readEntry cwd fs p with
  | some (Entry.file c) => Except.ok c
  | _ => Except.error Err.notFound

/-- Model of `fs.writeFile(p, c)`: writes through a symbolic link at `p`,
otherwise creates or replaces the entry at `p`. -/
def writeFile (cwd : String) (fs : FS) (p c : String) : FS :=
  match fsFind fs (absPath cwd p) with
  | some (Entry.symlink t) => fsSet fs (resolveLink (absPath cwd p) t) (Entry.file c)
  | _ => fsSet fs (absPath cwd p) (Entry.file c)

/-- Model of `fs.access(p)`: succeeds exactly when the path resolves to an
existing entry. -/
def accessOk (cwd : String) (fs : FS) (p : String) : Bool :=
  (readEntry cwd fs p).isSome

/-- Model of `fs.lstat(p)`: reports the entry at the path itself, without
following a symbolic link. -/
def lstatFs (cwd : String) (fs : FS) (p : String) : Except Err Entry :=
  match fsFind fs (absPath cwd p) with
  | some e => Except.ok e
  | none => Except.error Err.notFound

/-- Model of `fs.unlink(p)`: removes the file or symbolic link at the path
itself; fails on a missing path or a directory. -/
def unlinkFs (cwd : String) (fs : FS) (p : String) : Except Err FS :=
  match fsFind fs (absPath cwd p) with
  | some Entry.dir => Except.error Err.ioError
  | some _ => Except.ok (fsRemove fs (absPath cwd p))
  | none => Except.error Err.notFound

/-- Model of `fs.copyFile(src, dst)`: read the source (following links),
write the destination. -/
def copyFileFs (cwd : String) (fs : FS) (src dst : String) : Except Err FS :=
  match readFile cwd fs src with
  | Except.ok c => Except.ok (writeFile cwd fs dst c)
  | Except.error e => Except.error e

/-- Model of `fs.symlink(target, p)`: creates a symbolic link storing the
target string verbatim; fails if the path already exists. -/
def symlinkFs (cwd : String) (fs : FS) (target p : String) : Except Err FS :=
  match fsFind fs (absPath cwd p) with
  | none => Except.ok (fsSet fs (absPath cwd p) (Entry.symlink target))
  | some _ => Except.error Err.ioError

/-- Model of `fs.mkdir(p, { recursive: true })`: succeeds silently on an
existing directory, fails with `EEXIST` on an existing non-directory
(parent-chain creation is elided; its intermediate states are not examined
by any claim). -/
def mkdirFs (cwd : String) (fs : FS) (p : String) : Except Err FS :=
  match fsFind fs (absPath cwd p) with
  | none => Except.ok (fsSet fs (absPath cwd p) Entry.dir)
  | some Entry.dir => Except.ok fs
  | some _ => Except.error Err.ioError

/-! ## The patch lifecycle manager (`src/patcher.ts`) -/

def PATCHES_DIR : String := "patches"

/-- Model of `path.join` for the two-argument uses in the source. -/
def pjoin (a b : String) : String := a ++ "/" ++ b

/-- Model of `ensurePatchesDir`: `mkdir(PATCHES_DIR, { recursive: true })`,
swallowing `EEXIST` (the only error the model's `mkdir` produces) and
rethrowing nothing else. -/
def ensurePatchesDir (cwd : String) (fs : FS) : FS :=
  match mkdirFs cwd fs PATCHES_DIR with
  | Except.ok fs₁ => fs₁
  | Except.error _ => fs

/-- Model of `createPatch(filePath)`: resolve the path, make the record
directory, copy the file's content in as the snapshot, save the original
absolute path. -/
def createPatch (cwd fp : String) (fs : FS) : FS × Option Err :=
  let absoluteFilePath := absPath cwd fp
  let fileName := basename fp
  let patchDir := pjoin PATCHES_DIR fileName
  let fs₁ := ensurePatchesDir cwd fs
  match mkdirFs cwd fs₁ patchDir with
  | Except.error e => (fs₁, some e)
  | Except.ok fs₂ =>
    match readFile cwd fs₂ absoluteFilePath with
    | Except.error e => (fs₂, some e)
    | Except.ok originalContent =>
      let copyPath := pjoin patchDir fileName
      let fs₃ := writeFile cwd fs₂ copyPath originalContent
      let fs₄ := writeFile cwd fs₃ (pjoin patchDir "original-path.txt") absoluteFilePath
      (fs₄, none)

/-- Model of `commitPatch(filePath)`: diff the live file (original side)
against the snapshot copy (modified side), save the patch text, delete the
snapshot best-effort. -/
def commitPatch (cwd fp : String) (fs : FS) : FS × Option Err :=
  let fileName := basename fp
  let patchDir := pjoin PATCHES_DIR fileName
  let copyPath := pjoin patchDir fileName
  match readFile cwd fs fp with
  | Except.error e => (fs, some e)
  | Except.ok originalContent =>
    match readFile cwd fs copyPath with
    | Except.error e => (fs, some e)
    | Except.ok modifiedContent =>
      let patchContent := diffCreate fileName originalContent modifiedContent "original" "modified"
      let patchPath := pjoin patchDir (fileName ++ ".patch")
      let fs₁ := writeFile cwd fs patchPath patchContent
      let fs₂ :=
        match unlinkFs cwd fs₁ copyPath with
        | Except.ok fs₂ => fs₂
        | Except.error _ => fs₁
      (fs₂, none)

/-- Model of `applyPatch(filePath)`: check the patch text exists, read the
live file's current content, parse the patch leniently, apply the first
parsed patch with fuzz factor 3, save the result, back up the live file,
delete it and create the symbolic link. -/
def applyPatch (cwd fp : String) (fs : FS) : FS × Option Err :=
  let fileName := basename fp
  let patchDir := pjoin PATCHES_DIR fileName
  let patchPath := pjoin patchDir (fileName ++ ".patch")
  if accessOk cwd fs patchPath = false then (fs, some Err.notFound) else
  match readFile cwd fs fp with
  | Except.error e => (fs, some e)
  | Except.ok originalContent =>
    match readFile cwd fs patchPath with
    | Except.error e => (fs, some e)
    | Except.ok patchContent =>
      let patches := parsePatch patchContent
      match diffApply originalContent (patches.headD { hunks := [] }) 3 with
      | none => (fs, some Err.applyConflict)
      | some result =>
        let patchedPath := pjoin patchDir (fileName ++ ".patched")
        let fs₁ := writeFile cwd fs patchedPath result
        let backupPath := pjoin patchDir (fileName ++ ".original.backup")
        match copyFileFs cwd fs₁ fp backupPath with
        | Except.error e => (fs₁, some e)
        | Except.ok fs₂ =>
          match unlinkFs cwd fs₂ fp with
          | Except.error e => (fs₂, some e)
          | Except.ok fs₃ =>
            match symlinkFs cwd fs₃ patchedPath fp with
            | Except.error e => (fs₃, some e)
            | Except.ok fs₄ => (fs₄, none)

/-- Model of `revertPatch(filePath)`: require the backup to exist; if the
live path is currently a symbolic link, delete it, restore the backup
content as a regular file, then delete backup and patched result
best-effort; otherwise do nothing. -/
def revertPatch (cwd fp : String) (fs : FS) : FS × Option Err :=
  let fileName := basename fp
  let patchDir := pjoin PATCHES_DIR fileName
  let backupPath := pjoin patchDir (fileName ++ ".original.backup")
  let patchedPath := pjoin patchDir (fileName ++ ".patched")
  if accessOk cwd fs backupPath = false then (fs, some Err.notFound) else
  match lstatFs cwd fs fp with
  | Except.error e => (fs, some e)
  | Except.ok stats =>
    match stats with
    | Entry.symlink _ =>
      match unlinkFs cwd fs fp with
      | Except.error e => (fs, some e)
      | Except.ok fs₁ =>
        match copyFileFs cwd fs₁ backupPath fp with
        | Except.error e => (fs₁, some e)
        | Except.ok fs₂ =>
          let fs₃ :=
            match unlinkFs cwd fs₂ backupPath with
            | Except.ok f => f
            | Except.error _ => fs₂
          let fs₄ :=
            match unlinkFs cwd fs₃ patchedPath with
            | Except.ok f => f
            | Except.error _ => fs₃
          (fs₄, none)
    | _ => (fs, none)

/-! ## Lemmas: splitting and joining character lists -/

theorem splitOnChar_ne_nil (c : Char) (l : List Char) : splitOnChar c l ≠ [] := by
  induction l with
  | nil => simp [splitOnChar]
  | cons x xs ih =>
    simp only [splitOnChar]
    split
    · simp
    · split
      · simp
      · simp

theorem not_mem_of_mem_splitOnChar {c : Char} {l p : List Char}
    (hp : p ∈ splitOnChar c l) : c ∉ p := by
  induction l generalizing p with
  | nil =>
    simp only [splitOnChar, List.mem_singleton] at hp
    subst hp; simp
  | cons x xs ih =>
    by_cases hx : x = c
    · simp only [splitOnChar, if_pos hx, List.mem_cons] at hp
      rcases hp with h | h
      · subst h; simp
      · exact ih h
    · simp only [splitOnChar, if_neg hx] at hp
      cases hsp : splitOnChar c xs with
      | nil => exact absurd hsp (splitOnChar_ne_nil c xs)
      | cons y ys =>
        rw [hsp] at hp
        rcases List.mem_cons.mp hp with h | h
        · subst h
          intro hmem
          rcases List.mem_cons.mp hmem with h₁ | h₁
          · exact hx h₁.symm
          · exact ih (hsp ▸ List.mem_cons_self y ys) h₁
        · exact ih (hsp ▸ List.mem_cons_of_mem y h)

theorem joinChar_cons_cons (c x : Char) (y : List Char) (ys : List (List Char)) :
    joinChar c ((x :: y) :: ys) = x :: joinChar c (y :: ys) := by
  cases ys <;> simp [joinChar]

theorem joinChar_splitOnChar (c : Char) (l : List Char) :
    joinChar c (splitOnChar c l) = l := by
  induction l with
  | nil => rfl
  | cons x xs ih =>
    simp only [splitOnChar]
    split
    · rename_i hx
      cases hsp : splitOnChar c xs with
      | nil => exact absurd hsp (splitOnChar_ne_nil c xs)
      | cons y ys =>
        rw [hsp] at ih
        simp [joinChar, ih, hx]
    · cases hsp : splitOnChar c xs with
      | nil => exact absurd hsp (splitOnChar_ne_nil c xs)
      | cons y ys =>
        rw [hsp] at ih
        rw [joinChar_cons_cons, ih]

theorem splitOnChar_append_cons (c : Char) (xs ys : List Char) :
    splitOnChar c (xs ++ c :: ys) = splitOnChar c xs ++ splitOnChar c ys := by
  induction xs with
  | nil => simp [splitOnChar]
  | cons x xt ih =>
    simp only [List.cons_append, splitOnChar]
    split
    · simp only [List.append_eq]
      rw [ih]; simp
    · simp only [List.append_eq]
      rw [ih]
      cases hsp : splitOnChar c xt with
      | nil => exact absurd hsp (splitOnChar_ne_nil c xt)
      | cons y ys' => simp

theorem splitOnChar_of_not_mem {c : Char} {l : List Char} (h : c ∉ l) :
    splitOnChar c l = [l] := by
  induction l with
  | nil => rfl
  | cons x xs ih =>
    have hx : ¬x = c := fun he => h (he ▸ List.mem_cons_self x xs)
    have hxs : c ∉ xs := fun hm => h (List.mem_cons_of_mem x hm)
    simp only [splitOnChar, if_neg hx, ih hxs]

theorem splitOnChar_joinChar (c : Char) (L : List (List Char)) (hne : L ≠ [])
    (h : ∀ l ∈ L, c ∉ l) : splitOnChar c (joinChar c L) = L := by
  induction L with
  | nil => exact absurd rfl hne
  | cons l ls ih =>
    cases ls with
    | nil => exact splitOnChar_of_not_mem (h l (List.mem_singleton_self l))
    | cons l₂ ls₂ =>
      have hstep : joinChar c (l :: l₂ :: ls₂) = l ++ c :: joinChar c (l₂ :: ls₂) := rfl
      rw [hstep, splitOnChar_append_cons,
        ih (by simp) (fun x hx => h x (List.mem_cons_of_mem l hx)),
        splitOnChar_of_not_mem (h l (List.mem_cons_self l (l₂ :: ls₂)))]
      rfl

/-! ## Lemmas: boolean prefix test -/

theorem isPre_append (p s : List Char) : isPre p (p ++ s) = true := by
  induction p with
  | nil => rfl
  | cons a as ih => simp [isPre, ih]

theorem isPre_false_of_head_ne {a b : Char} (p q : List Char) (h : (a == b) = false) :
    isPre (a :: p) (b :: q) = false := by
  simp [isPre, h]

/-! ## Lemmas: strings -/

theorem strExt {s t : String} (h : s.data = t.data) : s = t := by
  cases s; cases t; exact congrArg String.mk h

@[simp] theorem ofChars_data (l : List Char) : (ofChars l).data = l := rfl

@[simp] theorem ofChars_data_self (s : String) : ofChars s.data = s := rfl

theorem strHasPre_slash_eq_false {s : String} (h : ('/' : Char) ∉ s.data) :
    strHasPre "/" s = false := by
  unfold strHasPre
  cases hd : s.data with
  | nil => rfl
  | cons x xs =>
    have hx : ('/' == x) = false := by
      rw [beq_eq_false_iff_ne]
      intro he
      apply h
      rw [hd]
      exact List.mem_cons.mpr (Or.inl he)
    exact isPre_false_of_head_ne _ _ hx

theorem strAppend_left_cancel {a b c : String} (h : a ++ b = a ++ c) : b = c := by
  apply strExt
  have hd := congrArg String.data h
  rw [String.data_append, String.data_append] at hd
  exact List.append_cancel_left hd

theorem strNe_of_length_lt {s t : String} (h : s.data.length < t.data.length) : s ≠ t :=
  fun he => absurd (congrArg (fun x => x.data.length) he) (Nat.ne_of_lt h)

theorem data_length_pos_of_ne_empty {s : String} (h : s ≠ "") : 0 < s.data.length := by
  cases hd : s.data with
  | nil => exact absurd (strExt (by simp [hd])) h
  | cons x xs => simp

theorem strNe_append_right {s t : String} (h : t ≠ "") : s ≠ s ++ t := by
  apply strNe_of_length_lt
  rw [String.data_append, List.length_append]
  have := data_length_pos_of_ne_empty h
  omega

theorem strAppend_right_ne {a b c : String} (hlen : b.data.length = c.data.length)
    (h : b ≠ c) : ∀ d : String, a ++ b ≠ d ++ c := by
  intro d he
  have hd := congrArg String.data he
  rw [String.data_append, String.data_append] at hd
  exact h (strExt (List.append_inj_right' hd hlen))

theorem map_data_ofChars (L : List (List Char)) : L.map (String.data ∘ ofChars) = L := by
  induction L with
  | nil => rfl
  | cons a t ih => simp only [List.map_cons, Function.comp_apply, ofChars_data, ih]

theorem map_ofChars_data (L : List String) : L.map (ofChars ∘ String.data) = L := by
  induction L with
  | nil => rfl
  | cons a t ih => simp only [List.map_cons, Function.comp_apply, ofChars_data_self, ih]

theorem strUnlines_strLines (s : String) : strUnlines (strLines s) = s := by
  unfold strLines strUnlines
  rw [List.map_map, map_data_ofChars, joinChar_splitOnChar]
  rfl

theorem strLines_strUnlines (L : List String) (hne : L ≠ [])
    (h : ∀ l ∈ L, ('\n' : Char) ∉ l.data) : strLines (strUnlines L) = L := by
  unfold strLines strUnlines
  rw [ofChars_data, splitOnChar_joinChar _ _ (by simpa using hne)
    (by
      intro l hl
      rcases List.mem_map.mp hl with ⟨x, hx, hxl⟩
      exact hxl ▸ h x hx)]
  rw [List.map_map, map_ofChars_data]

theorem mem_strLines_no_newline {s l : String} (h : l ∈ strLines s) :
    ('\n' : Char) ∉ l.data := by
  rcases List.mem_map.mp h with ⟨p, hp, hpl⟩
  rw [← hpl]
  exact not_mem_of_mem_splitOnChar hp

/-! ## Lemmas: decimal rendering -/

theorem digitChar_ne_newline : ∀ d : Nat, digitChar d ≠ '\n'
  | 0 => by decide
  | 1 => by decide
  | 2 => by decide
  | 3 => by decide
  | 4 => by decide
  | 5 => by decide
  | 6 => by decide
  | 7 => by decide
  | 8 => by decide
  | n + 9 => by
    show ('9' : Char) ≠ '\n'
    decide

theorem natReprAux_no_newline (fuel : Nat) : ∀ n, ('\n' : Char) ∉ natReprAux fuel n := by
  induction fuel with
  | zero => intro n; simp [natReprAux]
  | succ f ih =>
    intro n
    simp only [natReprAux]
    split
    · simp
    · intro hm
      rcases List.mem_append.mp hm with h | h
      · exact ih _ h
      · exact digitChar_ne_newline _ (List.mem_singleton.mp h).symm

theorem natRepr_no_newline (n : Nat) : ('\n' : Char) ∉ (natRepr n).data := by
  unfold natRepr
  split
  · decide
  · rw [ofChars_data]
    exact natReprAux_no_newline n n

/-! ## Lemmas: filesystem primitives -/

@[simp] theorem fsFind_fsSet_self (fs : FS) (k : String) (v : Entry) :
    fsFind (fsSet fs k v) k = some v := by
  induction fs with
  | nil => simp [fsSet, fsFind]
  | cons h t ih =>
    obtain ⟨q, e⟩ := h
    by_cases hq : q = k <;> simp [fsSet, fsFind, hq, ih]

theorem fsFind_fsSet_ne (fs : FS) {k k' : String} (v : Entry) (h : k' ≠ k) :
    fsFind (fsSet fs k v) k' = fsFind fs k' := by
  induction fs with
  | nil => simp [fsSet, fsFind, Ne.symm h]
  | cons hd t ih =>
    obtain ⟨q, e⟩ := hd
    by_cases hq : q = k
    · subst hq
      simp [fsSet, fsFind, Ne.symm h]
    · simp only [fsSet, if_neg hq, fsFind]
      split <;> simp_all

@[simp] theorem fsFind_fsRemove_self (fs : FS) (k : String) :
    fsFind (fsRemove fs k) k = none := by
  induction fs with
  | nil => simp [fsRemove, fsFind]
  | cons hd t ih =>
    obtain ⟨q, e⟩ := hd
    by_cases hq : q = k <;> simp [fsRemove, fsFind, hq, ih]

theorem fsFind_fsRemove_ne (fs : FS) {k k' : String} (h : k' ≠ k) :
    fsFind (fsRemove fs k) k' = fsFind fs k' := by
  induction fs with
  | nil => simp [fsRemove, fsFind]
  | cons hd t ih =>
    obtain ⟨q, e⟩ := hd
    by_cases hq : q = k
    · subst hq
      simp [fsRemove, fsFind, Ne.symm h, ih]
    · simp only [fsRemove, if_neg hq, fsFind]
      split <;> simp_all

/-! ## Lemmas: the parser recovers what the serializer wrote -/

theorem ppStep_empty (st : PPState) : ppStep "" st = { st with body := [] } := rfl

theorem ppStep_sep (st : PPState) :
    ppStep sepLine st = { st with body := [] } := rfl

theorem ppStep_minus (l : String) (st : PPState) :
    ppStep ("-" ++ l) st = { st with body := ("-" ++ l) :: st.body } := rfl

theorem ppStep_plus (l : String) (st : PPState) :
    ppStep ("+" ++ l) st = { st with body := ("+" ++ l) :: st.body } := rfl

theorem ppStep_minusHdr (X : String) (st : PPState) :
    ppStep ("--- " ++ X) st = { st with body := ("--- " ++ X) :: st.body } := rfl

theorem ppStep_plusHdr (X : String) (st : PPState) :
    ppStep ("+++ " ++ X) st = { st with body := ("+++ " ++ X) :: st.body } := rfl

theorem ppStep_index (name : String) (st : PPState) :
    ppStep ("Index: " ++ name) st =
    { body := [], hunks := [], patches := { hunks := st.hunks } :: st.patches } := rfl

theorem ppStep_hunkHeader (n m : Nat) (st : PPState) :
    ppStep (hunkHeader n m) st =
    { body := [], hunks := { oldStart := 1, lines := st.body } :: st.hunks,
      patches := st.patches } := rfl

theorem foldr_ppStep_minus (ls : List String) (st : PPState) :
    (ls.map (fun l => "-" ++ l)).foldr ppStep st =
    { st with body := ls.map (fun l => "-" ++ l) ++ st.body } := by
  induction ls with
  | nil => rfl
  | cons a t ih => simp only [List.map_cons, List.foldr_cons, ih, ppStep_minus, List.cons_append]

theorem foldr_ppStep_plus (ls : List String) (st : PPState) :
    (ls.map (fun l => "+" ++ l)).foldr ppStep st =
    { st with body := ls.map (fun l => "+" ++ l) ++ st.body } := by
  induction ls with
  | nil => rfl
  | cons a t ih => simp only [List.map_cons, List.foldr_cons, ih, ppStep_plus, List.cons_append]

/-- The single hunk the serializer emits: remove every old line, add every
new line, recorded at line 1. -/
def wholeFileHunk (old new : List String) : Hunk :=
  { oldStart := 1, lines := old.map (fun l => "-" ++ l) ++ new.map (fun l => "+" ++ l) }

theorem no_newline_append {a b : String} (ha : ('\n' : Char) ∉ a.data)
    (hb : ('\n' : Char) ∉ b.data) : ('\n' : Char) ∉ (a ++ b).data := by
  rw [String.data_append]
  intro hm
  rcases List.mem_append.mp hm with h | h
  exacts [ha h, hb h]

theorem hunkHeader_no_newline (n m : Nat) : ('\n' : Char) ∉ (hunkHeader n m).data := by
  unfold hunkHeader
  exact no_newline_append (no_newline_append (no_newline_append
    (no_newline_append (by decide) (natRepr_no_newline n)) (by decide))
    (natRepr_no_newline m)) (by decide)

/-- Parsing the serialized unified diff of `oldStr` against `newStr` recovers
exactly one patch for one file, holding one hunk that removes every old line
and adds every new line. -/
theorem parsePatch_diffCreate (name oldStr newStr : String)
    (hname : ('\n' : Char) ∉ name.data) :
    parsePatch (diffCreate name oldStr newStr "original" "modified") =
    [{ hunks := [wholeFileHunk (strLines oldStr) (strLines newStr)] }] := by
  unfold diffCreate parsePatch
  rw [strLines_strUnlines _ (by simp)
    (by
      intro l hl
      rcases List.mem_append.mp hl with hl | hl
      · rcases List.mem_append.mp hl with hl | hl
        · rcases List.mem_append.mp hl with hl | hl
          · simp only [List.mem_cons, List.mem_singleton, List.not_mem_nil,
              or_false] at hl
            rcases hl with rfl | rfl | rfl | rfl | rfl
            · exact no_newline_append (by decide) hname
            · decide
            · exact no_newline_append (no_newline_append
                (no_newline_append (by decide) hname) (by decide)) (by decide)
            · exact no_newline_append (no_newline_append
                (no_newline_append (by decide) hname) (by decide)) (by decide)
            · exact hunkHeader_no_newline _ _
          · rcases List.mem_map.mp hl with ⟨x, hx, rfl⟩
            exact no_newline_append (by decide) (mem_strLines_no_newline hx)
        · rcases List.mem_map.mp hl with ⟨x, hx, rfl⟩
          exact no_newline_append (by decide) (mem_strLines_no_newline hx)
      · rcases List.mem_singleton.mp hl with rfl
        decide)]
  rw [List.foldr_append, List.foldr_append, List.foldr_append]
  rw [show (([""] : List String).foldr ppStep { body := [], hunks := [], patches := [] }) =
    { body := [], hunks := [], patches := [] } from rfl]
  rw [foldr_ppStep_plus, foldr_ppStep_minus]
  simp only [List.foldr_cons, List.foldr_nil, ppStep_hunkHeader, ppStep_plusHdr,
    ppStep_minusHdr, ppStep_sep, ppStep_index, List.append_nil]
  rfl

/-! ## Lemmas: applying the serialized whole-file hunk -/

theorem oldSideF_minus (ls : List String) :
    (ls.map (fun l => "-" ++ l)).filterMap oldSideF = ls := by
  induction ls with
  | nil => rfl
  | cons a t ih =>
    simp only [List.map_cons, List.filterMap_cons,
      show oldSideF ("-" ++ a) = some a from rfl, ih]

theorem oldSideF_plus (ls : List String) :
    (ls.map (fun l => "+" ++ l)).filterMap oldSideF = [] := by
  induction ls with
  | nil => rfl
  | cons a t ih =>
    simp only [List.map_cons, List.filterMap_cons,
      show oldSideF ("+" ++ a) = none from rfl, ih]

theorem newSideF_minus (ls : List String) :
    (ls.map (fun l => "-" ++ l)).filterMap newSideF = [] := by
  induction ls with
  | nil => rfl
  | cons a t ih =>
    simp only [List.map_cons, List.filterMap_cons,
      show newSideF ("-" ++ a) = none from rfl, ih]

theorem newSideF_plus (ls : List String) :
    (ls.map (fun l => "+" ++ l)).filterMap newSideF = ls := by
  induction ls with
  | nil => rfl
  | cons a t ih =>
    simp only [List.map_cons, List.filterMap_cons,
      show newSideF ("+" ++ a) = some a from rfl, ih]

theorem hunkOldLines_whole (old new : List String) :
    hunkOldLines (wholeFileHunk old new) = old := by
  unfold hunkOldLines wholeFileHunk
  rw [List.filterMap_append, oldSideF_minus, oldSideF_plus, List.append_nil]

theorem hunkNewLines_whole (old new : List String) :
    hunkNewLines (wholeFileHunk old new) = new := by
  unfold hunkNewLines wholeFileHunk
  rw [List.filterMap_append, newSideF_minus, newSideF_plus, List.nil_append]

theorem find?_append_some {α} (p : α → Bool) (A B : List α) (a : α)
    (h : A.find? p = some a) : (A ++ B).find? p = some a := by
  induction A with
  | nil => simp [List.find?] at h
  | cons x t ih =>
    rw [List.cons_append]
    cases hp : p x with
    | true => rw [List.find?_cons_of_pos _ hp] at h ⊢; exact h
    | false =>
      rw [List.find?_cons_of_neg _ (by simp [hp])] at h ⊢
      exact ih h

theorem findPos_self (ls : List String) : ∀ fuzz, findPos ls ls 0 fuzz = some 0
  | 0 => by
    unfold findPos fuzzCandidates
    rw [List.find?_cons_of_pos _ (by simp [List.take_length])]
  | f + 1 => by
    unfold findPos fuzzCandidates
    exact find?_append_some _ _ _ 0 (by
      have := findPos_self ls f
      unfold findPos at this
      exact this)

/-- Applying the whole-file hunk produced by the serializer to the old text
yields exactly the new text. -/
theorem diffApply_whole (oldStr newStr : String) :
    diffApply oldStr
      { hunks := [wholeFileHunk (strLines oldStr) (strLines newStr)] } 3 =
    some newStr := by
  unfold diffApply applyHunks applyHunk
  rw [hunkOldLines_whole, hunkNewLines_whole]
  rw [show ((wholeFileHunk (strLines oldStr) (strLines newStr)).oldStart - 1) = 0 from rfl]
  rw [findPos_self (strLines oldStr) 3]
  simp only [List.take_zero, List.nil_append, Nat.zero_add, List.drop_length,
    List.append_nil]
  show some (strUnlines (strLines newStr)) = some newStr
  rw [strUnlines_strLines]

/-- Combined round trip at the diff layer: parsing the diff of `oldStr`
against `newStr` and applying its first patch to `oldStr` gives `newStr`. -/
theorem diffApply_parse_diffCreate (name oldStr newStr : String)
    (hname : ('\n' : Char) ∉ name.data) :
    diffApply oldStr
      ((parsePatch (diffCreate name oldStr newStr "original" "modified")).headD
        { hunks := [] }) 3 = some newStr := by
  rw [parsePatch_diffCreate name oldStr newStr hname]
  exact diffApply_whole oldStr newStr

/-! ## Lemmas: paths and record keys -/

theorem basename_no_slash {fp : String} (h : ('/' : Char) ∉ fp.data) :
    basename fp = fp := by
  unfold basename
  rw [splitOnChar_of_not_mem h]
  rfl

theorem absPath_rel {p : String} (cwd : String) (h : strHasPre "/" p = false) :
    absPath cwd p = cwd ++ "/" ++ p := by
  unfold absPath
  rw [h]
  rfl

theorem absPath_rel_of_no_slash {p : String} (cwd : String) (h : ('/' : Char) ∉ p.data) :
    absPath cwd p = cwd ++ "/" ++ p :=
  absPath_rel cwd (strHasPre_slash_eq_false h)

theorem absPath_abs {p : String} (cwd : String) (h : strHasPre "/" p = true) :
    absPath cwd p = p := by
  unfold absPath
  rw [h]
  rfl

theorem hasPre_slash_append {cwd : String} (s : String) (h : strHasPre "/" cwd = true) :
    strHasPre "/" (cwd ++ s) = true := by
  unfold strHasPre at h ⊢
  rw [String.data_append]
  cases hd : cwd.data with
  | nil => rw [hd] at h; exact absurd h (by decide)
  | cons x xs =>
    rw [hd] at h
    simp only [isPre, Bool.and_true] at h ⊢
    simpa using h

theorem ne_empty_of_hasPre_slash {cwd : String} (h : strHasPre "/" cwd = true) :
    cwd ≠ "" := by
  intro he
  rw [he] at h
  exact absurd h (by decide)

theorem dirname_concat {fp : String} (cwd : String) (h : ('/' : Char) ∉ fp.data) :
    dirname (cwd ++ "/" ++ fp) = cwd := by
  unfold dirname
  have hd : (cwd ++ "/" ++ fp).data = cwd.data ++ '/' :: fp.data := by
    rw [String.data_append, String.data_append]
    simp
  rw [hd, splitOnChar_append_cons, splitOnChar_of_not_mem h, List.dropLast_concat,
    joinChar_splitOnChar]
  rfl

theorem strAppend_ne_append {A B : String} (fp : String) (h : A ≠ B) :
    fp ++ A ≠ fp ++ B :=
  fun he => h (strAppend_left_cancel he)

theorem recKey_ne_recKey {S₁ S₂ : String} (cwd fp : String) (h : S₁ ≠ S₂) :
    cwd ++ "/" ++ pjoin (pjoin PATCHES_DIR fp) S₁ ≠
    cwd ++ "/" ++ pjoin (pjoin PATCHES_DIR fp) S₂ := by
  intro he
  exact h (strAppend_left_cancel (strAppend_left_cancel he))

theorem liveKey_ne_recKey (cwd fp S : String) :
    cwd ++ "/" ++ fp ≠ cwd ++ "/" ++ pjoin (pjoin PATCHES_DIR fp) S := by
  intro he
  have h := strAppend_left_cancel he
  have hl := congrArg (fun x => x.data.length) h
  simp only [pjoin, PATCHES_DIR, String.data_append, List.length_append] at hl
  simp at hl
  all_goals omega

theorem liveKey_ne_dir1Key (cwd fp : String) :
    cwd ++ "/" ++ fp ≠ cwd ++ "/" ++ pjoin PATCHES_DIR fp := by
  intro he
  have h := strAppend_left_cancel he
  have hl := congrArg (fun x => x.data.length) h
  simp only [pjoin, PATCHES_DIR, String.data_append, List.length_append] at hl
  simp at hl

theorem recKey_ne_dir1Key (cwd fp S : String) :
    cwd ++ "/" ++ pjoin (pjoin PATCHES_DIR fp) S ≠ cwd ++ "/" ++ pjoin PATCHES_DIR fp := by
  intro he
  have h := strAppend_left_cancel he
  have hl := congrArg (fun x => x.data.length) h
  simp only [pjoin, PATCHES_DIR, String.data_append, List.length_append] at hl
  simp at hl
  all_goals omega

theorem recKey_ne_dir0Key (cwd fp S : String) :
    cwd ++ "/" ++ pjoin (pjoin PATCHES_DIR fp) S ≠ cwd ++ "/" ++ PATCHES_DIR := by
  intro he
  have h := strAppend_left_cancel he
  have hl := congrArg (fun x => x.data.length) h
  simp only [pjoin, PATCHES_DIR, String.data_append, List.length_append] at hl
  simp at hl
  all_goals omega

theorem dir1Key_ne_dir0Key (cwd fp : String) :
    cwd ++ "/" ++ pjoin PATCHES_DIR fp ≠ cwd ++ "/" ++ PATCHES_DIR := by
  intro he
  have h := strAppend_left_cancel he
  have hl := congrArg (fun x => x.data.length) h
  simp only [pjoin, PATCHES_DIR, String.data_append, List.length_append] at hl
  simp at hl
  all_goals omega

theorem patch_ne_copy (fp : String) : fp ++ ".patch" ≠ fp :=
  fun he => @strNe_append_right fp ".patch" (by decide) he.symm

theorem patched_ne_copy (fp : String) : fp ++ ".patched" ≠ fp :=
  fun he => @strNe_append_right fp ".patched" (by decide) he.symm

theorem backup_ne_copy (fp : String) : fp ++ ".original.backup" ≠ fp :=
  fun he => @strNe_append_right fp ".original.backup" (by decide) he.symm

theorem patched_ne_patch (fp : String) : fp ++ ".patched" ≠ fp ++ ".patch" :=
  strAppend_ne_append fp (by decide)

theorem backup_ne_patch (fp : String) : fp ++ ".original.backup" ≠ fp ++ ".patch" :=
  strAppend_ne_append fp (by decide)

theorem backup_ne_patched (fp : String) : fp ++ ".original.backup" ≠ fp ++ ".patched" :=
  strAppend_ne_append fp (by decide)

theorem patch_ne_orig (fp : String) : fp ++ ".patch" ≠ "original-path.txt" := by
  have h := @strAppend_right_ne fp ".patch" "th.txt"
    (by decide) (by decide) "original-pa"
  rwa [show ("original-pa" ++ "th.txt" : String) = "original-path.txt" from rfl] at h

theorem patched_ne_orig (fp : String) : fp ++ ".patched" ≠ "original-path.txt" := by
  have h := @strAppend_right_ne fp ".patched" "path.txt"
    (by decide) (by decide) "original-"
  rwa [show ("original-" ++ "path.txt" : String) = "original-path.txt" from rfl] at h

theorem backup_ne_orig (fp : String) : fp ++ ".original.backup" ≠ "original-path.txt" := by
  have h := @strAppend_right_ne fp ".original.backup" "riginal-path.txt"
    (by decide) (by decide) "o"
  rwa [show ("o" ++ "riginal-path.txt" : String) = "original-path.txt" from rfl] at h

/-! ## Lemmas: evaluating the filesystem primitives -/

theorem readFile_of_file {cwd p c : String} {fs : FS}
    (h : fsFind fs (absPath cwd p) = some (Entry.file c)) :
    readFile cwd fs p = Except.ok c := by
  unfold readFile readEntry
  rw [h]

theorem readEntry_of_symlink {cwd p t : String} {fs : FS}
    (h₁ : fsFind fs (absPath cwd p) = some (Entry.symlink t)) :
    readEntry cwd fs p = fsFind fs (resolveLink (absPath cwd p) t) := by
  unfold readEntry
  rw [h₁]

theorem readFile_of_symlink {cwd p t c : String} {fs : FS}
    (h₁ : fsFind fs (absPath cwd p) = some (Entry.symlink t))
    (h₂ : fsFind fs (resolveLink (absPath cwd p) t) = some (Entry.file c)) :
    readFile cwd fs p = Except.ok c := by
  unfold readFile
  rw [readEntry_of_symlink h₁, h₂]

theorem readFile_of_none {cwd p : String} {fs : FS}
    (h : fsFind fs (absPath cwd p) = none) :
    readFile cwd fs p = Except.error Err.notFound := by
  unfold readFile readEntry
  rw [h]

theorem writeFile_of_none {cwd p : String} {fs : FS} (c : String)
    (h : fsFind fs (absPath cwd p) = none) :
    writeFile cwd fs p c = fsSet fs (absPath cwd p) (Entry.file c) := by
  unfold writeFile
  rw [h]

theorem writeFile_of_file {cwd p d : String} {fs : FS} (c : String)
    (h : fsFind fs (absPath cwd p) = some (Entry.file d)) :
    writeFile cwd fs p c = fsSet fs (absPath cwd p) (Entry.file c) := by
  unfold writeFile
  rw [h]

theorem accessOk_of_file {cwd p c : String} {fs : FS}
    (h : fsFind fs (absPath cwd p) = some (Entry.file c)) :
    accessOk cwd fs p = true := by
  unfold accessOk readEntry
  rw [h]
  rfl

theorem accessOk_of_none {cwd p : String} {fs : FS}
    (h : fsFind fs (absPath cwd p) = none) :
    accessOk cwd fs p = false := by
  unfold accessOk readEntry
  rw [h]
  rfl

theorem unlinkFs_of_file {cwd p c : String} {fs : FS}
    (h : fsFind fs (absPath cwd p) = some (Entry.file c)) :
    unlinkFs cwd fs p = Except.ok (fsRemove fs (absPath cwd p)) := by
  unfold unlinkFs
  rw [h]

theorem unlinkFs_of_symlink {cwd p t : String} {fs : FS}
    (h : fsFind fs (absPath cwd p) = some (Entry.symlink t)) :
    unlinkFs cwd fs p = Except.ok (fsRemove fs (absPath cwd p)) := by
  unfold unlinkFs
  rw [h]

theorem unlinkFs_of_none {cwd p : String} {fs : FS}
    (h : fsFind fs (absPath cwd p) = none) :
    unlinkFs cwd fs p = Except.error Err.notFound := by
  unfold unlinkFs
  rw [h]

theorem symlinkFs_of_none {cwd p : String} {fs : FS} (t : String)
    (h : fsFind fs (absPath cwd p) = none) :
    symlinkFs cwd fs t p = Except.ok (fsSet fs (absPath cwd p) (Entry.symlink t)) := by
  unfold symlinkFs
  rw [h]

theorem lstatFs_of_find {cwd p : String} {e : Entry} {fs : FS}
    (h : fsFind fs (absPath cwd p) = some e) :
    lstatFs cwd fs p = Except.ok e := by
  unfold lstatFs
  rw [h]

theorem mkdirFs_of_none {cwd p : String} {fs : FS}
    (h : fsFind fs (absPath cwd p) = none) :
    mkdirFs cwd fs p = Except.ok (fsSet fs (absPath cwd p) Entry.dir) := by
  unfold mkdirFs
  rw [h]

theorem mkdirFs_of_dir {cwd p : String} {fs : FS}
    (h : fsFind fs (absPath cwd p) = some Entry.dir) :
    mkdirFs cwd fs p = Except.ok fs := by
  unfold mkdirFs
  rw [h]

theorem mkdirFs_of_file {cwd p c : String} {fs : FS}
    (h : fsFind fs (absPath cwd p) = some (Entry.file c)) :
    mkdirFs cwd fs p = Except.error Err.ioError := by
  unfold mkdirFs
  rw [h]

/-! ## Lemmas: inverting the filesystem primitives on success -/

theorem readFile_of_dir {cwd p : String} {fs : FS}
    (h : fsFind fs (absPath cwd p) = some Entry.dir) :
    readFile cwd fs p = Except.error Err.notFound := by
  unfold readFile readEntry
  rw [h]

theorem readFile_ok_cases {cwd p c : String} {fs : FS}
    (h : readFile cwd fs p = Except.ok c) :
    fsFind fs (absPath cwd p) = some (Entry.file c) ∨
    ∃ t, fsFind fs (absPath cwd p) = some (Entry.symlink t) ∧
      fsFind fs (resolveLink (absPath cwd p) t) = some (Entry.file c) := by
  cases hf : fsFind fs (absPath cwd p) with
  | none => rw [readFile_of_none hf] at h; exact absurd h (by simp)
  | some e =>
    cases e with
    | file d =>
      rw [readFile_of_file hf] at h
      simp only [Except.ok.injEq] at h
      exact Or.inl (by rw [h])
    | dir => rw [readFile_of_dir hf] at h; exact absurd h (by simp)
    | symlink t =>
      unfold readFile at h
      rw [readEntry_of_symlink hf] at h
      cases hg : fsFind fs (resolveLink (absPath cwd p) t) with
      | none => rw [hg] at h; exact absurd h (by simp)
      | some e' =>
        cases e' with
        | file d =>
          rw [hg] at h
          simp only [Except.ok.injEq] at h
          exact Or.inr ⟨t, rfl, by rw [hg, h]⟩
        | dir => rw [hg] at h; exact absurd h (by simp)
        | symlink u => rw [hg] at h; exact absurd h (by simp)

theorem accessOk_of_readFile_ok {cwd p c : String} {fs : FS}
    (h : readFile cwd fs p = Except.ok c) : accessOk cwd fs p = true := by
  unfold readFile at h
  unfold accessOk
  cases hr : readEntry cwd fs p with
  | none => rw [hr] at h; exact absurd h (by simp)
  | some e => rfl

theorem writeFile_of_not_symlink {cwd p : String} {fs : FS} (c : String)
    (h : ∀ t, fsFind fs (absPath cwd p) ≠ some (Entry.symlink t)) :
    writeFile cwd fs p c = fsSet fs (absPath cwd p) (Entry.file c) := by
  unfold writeFile
  cases hf : fsFind fs (absPath cwd p) with
  | none => rfl
  | some e =>
    cases e with
    | file d => rfl
    | dir => rfl
    | symlink t => exact absurd hf (h t)

theorem unlinkFs_ok_inv {cwd p : String} {fs fs' : FS}
    (h : unlinkFs cwd fs p = Except.ok fs') :
    fs' = fsRemove fs (absPath cwd p) := by
  unfold unlinkFs at h
  cases hf : fsFind fs (absPath cwd p) with
  | none => rw [hf] at h; exact absurd h (by simp)
  | some e =>
    cases e with
    | file d => rw [hf] at h; simpa using h.symm
    | dir => rw [hf] at h; exact absurd h (by simp)
    | symlink t => rw [hf] at h; simpa using h.symm

theorem copyFileFs_ok_inv {cwd src dst : String} {fs fs' : FS}
    (h : copyFileFs cwd fs src dst = Except.ok fs') :
    ∃ B, readFile cwd fs src = Except.ok B ∧ fs' = writeFile cwd fs dst B := by
  unfold copyFileFs at h
  cases hr : readFile cwd fs src with
  | error e => rw [hr] at h; exact absurd h (by simp)
  | ok B =>
    rw [hr] at h
    simp only [Except.ok.injEq] at h
    exact ⟨B, rfl, h.symm⟩

theorem symlinkFs_ok_inv {cwd p t : String} {fs fs' : FS}
    (h : symlinkFs cwd fs t p = Except.ok fs') :
    fs' = fsSet fs (absPath cwd p) (Entry.symlink t) := by
  unfold symlinkFs at h
  cases hf : fsFind fs (absPath cwd p) with
  | none => rw [hf] at h; simpa using h.symm
  | some e => rw [hf] at h; exact absurd h (by simp)

theorem mkdirFs_ok_inv {cwd p : String} {fs fs' : FS}
    (h : mkdirFs cwd fs p = Except.ok fs') :
    fs' = fsSet fs (absPath cwd p) Entry.dir ∨ fs' = fs := by
  unfold mkdirFs at h
  cases hf : fsFind fs (absPath cwd p) with
  | none => rw [hf] at h; exact Or.inl (by simpa using h.symm)
  | some e =>
    cases e with
    | file d => rw [hf] at h; exact absurd h (by simp)
    | dir => rw [hf] at h; exact Or.inr (by simpa using h.symm)
    | symlink t => rw [hf] at h; exact absurd h (by simp)

theorem ensurePatchesDir_inv (cwd : String) (fs : FS) :
    ensurePatchesDir cwd fs = fsSet fs (absPath cwd PATCHES_DIR) Entry.dir ∨
    ensurePatchesDir cwd fs = fs := by
  unfold ensurePatchesDir
  cases hm : mkdirFs cwd fs PATCHES_DIR with
  | error e => exact Or.inr rfl
  | ok fs₁ => exact mkdirFs_ok_inv hm

/-! ## Claim theorems -/

theorem revert_regular_eq (cwd fp F : String) (fs : FS)
    (hlive : fsFind fs (absPath cwd fp) = some (Entry.file F)) :
    revertPatch cwd fp fs =
      (fs, if accessOk cwd fs
          (pjoin (pjoin PATCHES_DIR (basename fp)) (basename fp ++ ".original.backup"))
        then none else some Err.notFound) := by
  simp only [revertPatch]
  cases hacc : accessOk cwd fs
      (pjoin (pjoin PATCHES_DIR (basename fp)) (basename fp ++ ".original.backup")) with
  | false => simp [hacc]
  | true => simp [hacc, lstatFs_of_find hlive]

/-- C3: calling `revertPatch` on a file whose live path is a regular file
(never applied) returns the filesystem completely unchanged; it succeeds
when the backup exists and raises `NotFoundError` exactly when the backup is
missing — the only error this configuration can produce. -/
theorem C3_revert_noop (cwd fp F : String) (fs : FS)
    (hlive : fsFind fs (absPath cwd fp) = some (Entry.file F)) :
    revertPatch cwd fp fs =
      (fs, if accessOk cwd fs
          (pjoin (pjoin PATCHES_DIR (basename fp)) (basename fp ++ ".original.backup"))
        then none else some Err.notFound) :=
  revert_regular_eq cwd fp F fs hlive

/-- C3 witness: a concrete regular live file with a backup present; revert
succeeds and returns the state unchanged. -/
theorem C3_witness :
    revertPatch "/cwd" "a.txt"
      [("/cwd/a.txt", Entry.file "hello"),
       ("/cwd/patches/a.txt/a.txt.original.backup", Entry.file "b")] =
    ([("/cwd/a.txt", Entry.file "hello"),
      ("/cwd/patches/a.txt/a.txt.original.backup", Entry.file "b")], none) := by
  rw [C3_revert_noop "/cwd" "a.txt" "hello" _ (by decide)]
  decide

theorem apply_conflict_eq (cwd fp F c : String) (fs : FS)
    (hlive : readFile cwd fs fp = Except.ok F)
    (hpatch : readFile cwd fs
      (pjoin (pjoin PATCHES_DIR (basename fp)) (basename fp ++ ".patch")) = Except.ok c)
    (hconf : diffApply F ((parsePatch c).headD { hunks := [] }) 3 = none) :
    applyPatch cwd fp fs = (fs, some Err.applyConflict) := by
  simp only [applyPatch, accessOk_of_readFile_ok hpatch, hlive, hpatch, hconf]
  simp

/-- C2: when the patch text exists and parses but cannot be matched against
the live file's current content even with the fuzz tolerance, `applyPatch`
returns the filesystem exactly as it was (no patched-result, no backup, live
file untouched) together with the `ApplyConflictError`. -/
theorem C2_apply_conflict_atomic (cwd fp F c : String) (fs : FS)
    (hlive : readFile cwd fs fp = Except.ok F)
    (hpatch : readFile cwd fs
      (pjoin (pjoin PATCHES_DIR (basename fp)) (basename fp ++ ".patch")) = Except.ok c)
    (hconf : diffApply F ((parsePatch c).headD { hunks := [] }) 3 = none) :
    applyPatch cwd fp fs = (fs, some Err.applyConflict) :=
  apply_conflict_eq cwd fp F c fs hlive hpatch hconf

/-- C2 witness: a patch whose hunk matches nowhere in the live content. -/
theorem C2_witness :
    applyPatch "/cwd" "a.txt"
      [("/cwd/a.txt", Entry.file "hello"),
       ("/cwd/patches/a.txt/a.txt.patch", Entry.file "@@ -1,1 +1,1 @@\n-xxx\n+yyy\n")] =
    ([("/cwd/a.txt", Entry.file "hello"),
      ("/cwd/patches/a.txt/a.txt.patch", Entry.file "@@ -1,1 +1,1 @@\n-xxx\n+yyy\n")],
     some Err.applyConflict) :=
  C2_apply_conflict_atomic "/cwd" "a.txt" "hello" "@@ -1,1 +1,1 @@\n-xxx\n+yyy\n" _
    (by rfl) (by rfl) (by decide)

/-- C9: the snapshot-copy deletion at the end of `commitPatch` and the
backup/patched-result deletions at the end of `revertPatch` swallow their
own failures: once the operation's required reads have succeeded, the
operation reports success no matter how the cleanup deletions fare (the
revert conjunct places no assumption at all on the patched-result file, so
its deletion may fail and is swallowed). -/
theorem C9_cleanup_swallowed :
    (∀ cwd fp F M fs, readFile cwd fs fp = Except.ok F →
      readFile cwd fs (pjoin (pjoin PATCHES_DIR (basename fp)) (basename fp)) =
        Except.ok M →
      (commitPatch cwd fp fs).2 = none) ∧
    (∀ cwd fp B t fs,
      fsFind fs (absPath cwd fp) = some (Entry.symlink t) →
      fsFind fs (absPath cwd
        (pjoin (pjoin PATCHES_DIR (basename fp)) (basename fp ++ ".original.backup"))) =
        some (Entry.file B) →
      (revertPatch cwd fp fs).2 = none) := by
  constructor
  · intro cwd fp F M fs h1 h2
    simp only [commitPatch, h1, h2]
  · intro cwd fp B t fs hlive hbk
    have hne : absPath cwd
        (pjoin (pjoin PATCHES_DIR (basename fp)) (basename fp ++ ".original.backup")) ≠
        absPath cwd fp := by
      intro he
      rw [he, hlive] at hbk
      exact absurd hbk (by simp)
    have hr1 : readFile cwd (fsRemove fs (absPath cwd fp))
        (pjoin (pjoin PATCHES_DIR (basename fp)) (basename fp ++ ".original.backup")) =
        Except.ok B :=
      readFile_of_file (by rw [fsFind_fsRemove_ne _ hne]; exact hbk)
    simp only [revertPatch, accessOk_of_file hbk, lstatFs_of_find hlive,
      unlinkFs_of_symlink hlive, copyFileFs, hr1]
    simp

/-- C9 witness: commit cleanup on a concrete state, and revert cleanup on a
concrete state where the patched-result file is already missing (so its
best-effort deletion fails and is swallowed). -/
theorem C9_witness :
    (commitPatch "/cwd" "a.txt"
      [("/cwd/a.txt", Entry.file "h"), ("/cwd/patches/a.txt/a.txt", Entry.file "m")]).2 =
      none ∧
    (revertPatch "/cwd" "a.txt"
      [("/cwd/a.txt", Entry.symlink "patches/a.txt/a.txt.patched"),
       ("/cwd/patches/a.txt/a.txt.original.backup", Entry.file "b")]).2 = none :=
  ⟨C9_cleanup_swallowed.1 "/cwd" "a.txt" "h" "m" _ (by rfl) (by rfl),
   C9_cleanup_swallowed.2 "/cwd" "a.txt" "b" "patches/a.txt/a.txt.patched" _
     (by decide) (by decide)⟩

/-- C7: on a record whose snapshot copy and live file are readable,
`commitPatch` succeeds and the saved patch text is exactly the unified diff
whose original side is the live file's current content, whose modified side
is the snapshot copy's current content, with the file's base name as display
label and the literal side labels "original" and "modified". -/
theorem C7_commit_orientation (cwd fp F M : String) (fs : FS)
    (hlive : readFile cwd fs fp = Except.ok F)
    (hcopy : readFile cwd fs
      (pjoin (pjoin PATCHES_DIR (basename fp)) (basename fp)) = Except.ok M)
    (hpk : ∀ t, fsFind fs
      (absPath cwd (pjoin (pjoin PATCHES_DIR (basename fp)) (basename fp ++ ".patch"))) ≠
      some (Entry.symlink t)) :
    (commitPatch cwd fp fs).2 = none ∧
    fsFind (commitPatch cwd fp fs).1
      (absPath cwd (pjoin (pjoin PATCHES_DIR (basename fp)) (basename fp ++ ".patch"))) =
    some (Entry.file (diffCreate (basename fp) F M "original" "modified")) := by
  have habs : ∀ S : String,
      absPath cwd (pjoin (pjoin PATCHES_DIR (basename fp)) S) =
      cwd ++ "/" ++ pjoin (pjoin PATCHES_DIR (basename fp)) S :=
    fun S => absPath_rel cwd rfl
  have hw := @writeFile_of_not_symlink cwd
    (pjoin (pjoin PATCHES_DIR (basename fp)) (basename fp ++ ".patch")) fs
    (diffCreate (basename fp) F M "original" "modified") hpk
  have hkey : absPath cwd (pjoin (pjoin PATCHES_DIR (basename fp)) (basename fp)) ≠
      absPath cwd (pjoin (pjoin PATCHES_DIR (basename fp)) (basename fp ++ ".patch")) := by
    rw [habs, habs]
    exact recKey_ne_recKey cwd (basename fp) (patch_ne_copy (basename fp)).symm
  simp only [commitPatch, hlive, hcopy, hw]
  cases hu : unlinkFs cwd
      (fsSet fs (absPath cwd
        (pjoin (pjoin PATCHES_DIR (basename fp)) (basename fp ++ ".patch")))
        (Entry.file (diffCreate (basename fp) F M "original" "modified")))
      (pjoin (pjoin PATCHES_DIR (basename fp)) (basename fp)) with
  | error e =>
    refine ⟨by simp, ?_⟩
    simp only [fsFind_fsSet_self]
  | ok f =>
    have hf := unlinkFs_ok_inv hu
    subst hf
    refine ⟨by simp, ?_⟩
    simp only [fsFind_fsRemove_ne _ (Ne.symm hkey), fsFind_fsSet_self]

/-- C7 witness: concrete commit; the stored patch text equals the modelled
unified diff of live content "h" against snapshot content "m". -/
theorem C7_witness :
    (commitPatch "/cwd" "a.txt"
      [("/cwd/a.txt", Entry.file "h"), ("/cwd/patches/a.txt/a.txt", Entry.file "m")]).2 =
      none ∧
    fsFind (commitPatch "/cwd" "a.txt"
      [("/cwd/a.txt", Entry.file "h"), ("/cwd/patches/a.txt/a.txt", Entry.file "m")]).1
      (absPath "/cwd" (pjoin (pjoin PATCHES_DIR (basename "a.txt"))
        (basename "a.txt" ++ ".patch"))) =
    some (Entry.file (diffCreate (basename "a.txt") "h" "m" "original" "modified")) :=
  C7_commit_orientation "/cwd" "a.txt" "h" "m" _
    (by rfl) (by rfl) (fun t h => Option.noConfusion h)

/-! ## Helper lemmas for the symlink invariant -/

theorem applyPatch_ok_live (cwd fp : String) (fs fs' : FS)
    (h : applyPatch cwd fp fs = (fs', none)) :
    fsFind fs' (absPath cwd fp) =
      some (Entry.symlink (pjoin (pjoin PATCHES_DIR (basename fp))
        (basename fp ++ ".patched"))) := by
  simp only [applyPatch] at h
  split at h
  · exact absurd (congrArg Prod.snd h) (by simp)
  · split at h
    · exact absurd (congrArg Prod.snd h) (by simp)
    · split at h
      · exact absurd (congrArg Prod.snd h) (by simp)
      · split at h
        · exact absurd (congrArg Prod.snd h) (by simp)
        · split at h
          · exact absurd (congrArg Prod.snd h) (by simp)
          · split at h
            · exact absurd (congrArg Prod.snd h) (by simp)
            · split at h
              · exact absurd (congrArg Prod.snd h) (by simp)
              · rename_i fs₄ heq
                have hf : fs₄ = fs' := congrArg Prod.fst h
                rw [← hf, symlinkFs_ok_inv heq, fsFind_fsSet_self]

theorem createPatch_live_preserved (cwd fp F : String) (fs : FS)
    (hsl : ('/' : Char) ∉ fp.data) (hp7 : fp ≠ "patches")
    (hrec : ∀ S t, fsFind fs (absPath cwd (pjoin (pjoin PATCHES_DIR fp) S)) ≠
      some (Entry.symlink t))
    (hlive : fsFind fs (absPath cwd fp) = some (Entry.file F)) :
    fsFind (createPatch cwd fp fs).1 (absPath cwd fp) = some (Entry.file F) := by
  have hb : basename fp = fp := basename_no_slash hsl
  have habsL : absPath cwd fp = cwd ++ "/" ++ fp := absPath_rel_of_no_slash cwd hsl
  have habs0 : absPath cwd PATCHES_DIR = cwd ++ "/" ++ PATCHES_DIR := absPath_rel cwd rfl
  have habs1 : absPath cwd (pjoin PATCHES_DIR fp) = cwd ++ "/" ++ pjoin PATCHES_DIR fp :=
    absPath_rel cwd rfl
  have habsS : ∀ S : String, absPath cwd (pjoin (pjoin PATCHES_DIR fp) S) =
      cwd ++ "/" ++ pjoin (pjoin PATCHES_DIR fp) S := fun S => absPath_rel cwd rfl
  have hld0 : absPath cwd fp ≠ absPath cwd PATCHES_DIR := by
    rw [habsL, habs0]; exact fun he => hp7 (strAppend_left_cancel he)
  have hld1 : absPath cwd fp ≠ absPath cwd (pjoin PATCHES_DIR fp) := by
    rw [habsL, habs1]; exact liveKey_ne_dir1Key cwd fp
  have hldS : ∀ S, absPath cwd fp ≠ absPath cwd (pjoin (pjoin PATCHES_DIR fp) S) := by
    intro S; rw [habsL, habsS]; exact liveKey_ne_recKey cwd fp S
  have hrd0 : ∀ S, absPath cwd (pjoin (pjoin PATCHES_DIR fp) S) ≠ absPath cwd PATCHES_DIR := by
    intro S; rw [habsS, habs0]; exact recKey_ne_dir0Key cwd fp S
  have hrd1 : ∀ S, absPath cwd (pjoin (pjoin PATCHES_DIR fp) S) ≠
      absPath cwd (pjoin PATCHES_DIR fp) := by
    intro S; rw [habsS, habs1]; exact recKey_ne_dir1Key cwd fp S
  simp only [createPatch, hb]
  obtain ⟨fs₁, hfs₁, hlive1, hrec1⟩ : ∃ fs₁, ensurePatchesDir cwd fs = fs₁ ∧
      fsFind fs₁ (absPath cwd fp) = some (Entry.file F) ∧
      ∀ S t, fsFind fs₁ (absPath cwd (pjoin (pjoin PATCHES_DIR fp) S)) ≠
        some (Entry.symlink t) := by
    rcases ensurePatchesDir_inv cwd fs with h1 | h1
    · refine ⟨_, h1, ?_, ?_⟩
      · rw [fsFind_fsSet_ne _ _ hld0]; exact hlive
      · intro S t
        rw [fsFind_fsSet_ne _ _ (hrd0 S)]
        exact hrec S t
    · exact ⟨_, h1, hlive, hrec⟩
  rw [hfs₁]
  split
  · exact hlive1
  · rename_i fs₂ hm
    obtain ⟨hlive2, hrec2⟩ : fsFind fs₂ (absPath cwd fp) = some (Entry.file F) ∧
        ∀ S t, fsFind fs₂ (absPath cwd (pjoin (pjoin PATCHES_DIR fp) S)) ≠
          some (Entry.symlink t) := by
      rcases mkdirFs_ok_inv hm with h2 | h2 <;> subst h2
      · refine ⟨?_, ?_⟩
        · rw [fsFind_fsSet_ne _ _ hld1]; exact hlive1
        · intro S t
          rw [fsFind_fsSet_ne _ _ (hrd1 S)]
          exact hrec1 S t
      · exact ⟨hlive1, hrec1⟩
    split
    · exact hlive2
    · rename_i C hr
      have hw1 : writeFile cwd fs₂ (pjoin (pjoin PATCHES_DIR fp) fp) C =
          fsSet fs₂ (absPath cwd (pjoin (pjoin PATCHES_DIR fp) fp)) (Entry.file C) :=
        writeFile_of_not_symlink C (hrec2 fp)
      have hw2 : writeFile cwd (fsSet fs₂ (absPath cwd (pjoin (pjoin PATCHES_DIR fp) fp))
            (Entry.file C)) (pjoin (pjoin PATCHES_DIR fp) "original-path.txt")
            (absPath cwd fp) =
          fsSet (fsSet fs₂ (absPath cwd (pjoin (pjoin PATCHES_DIR fp) fp)) (Entry.file C))
            (absPath cwd (pjoin (pjoin PATCHES_DIR fp) "original-path.txt"))
            (Entry.file (absPath cwd fp)) := by
        apply writeFile_of_not_symlink
        intro t
        by_cases horig : absPath cwd (pjoin (pjoin PATCHES_DIR fp) "original-path.txt") =
            absPath cwd (pjoin (pjoin PATCHES_DIR fp) fp)
        · rw [horig, fsFind_fsSet_self]; simp
        · rw [fsFind_fsSet_ne _ _ horig]
          exact hrec2 "original-path.txt" t
      rw [hw1, hw2]
      simp only [fsFind_fsSet_ne _ _ (hldS "original-path.txt"),
        fsFind_fsSet_ne _ _ (hldS fp)]
      exact hlive2

theorem commitPatch_live_preserved (cwd fp F : String) (fs : FS)
    (hsl : ('/' : Char) ∉ fp.data)
    (hrec : ∀ S t, fsFind fs (absPath cwd (pjoin (pjoin PATCHES_DIR fp) S)) ≠
      some (Entry.symlink t))
    (hlive : fsFind fs (absPath cwd fp) = some (Entry.file F)) :
    fsFind (commitPatch cwd fp fs).1 (absPath cwd fp) = some (Entry.file F) := by
  have hb : basename fp = fp := basename_no_slash hsl
  have habsL : absPath cwd fp = cwd ++ "/" ++ fp := absPath_rel_of_no_slash cwd hsl
  have habsS : ∀ S : String, absPath cwd (pjoin (pjoin PATCHES_DIR fp) S) =
      cwd ++ "/" ++ pjoin (pjoin PATCHES_DIR fp) S := fun S => absPath_rel cwd rfl
  have hldS : ∀ S, absPath cwd fp ≠ absPath cwd (pjoin (pjoin PATCHES_DIR fp) S) := by
    intro S; rw [habsL, habsS]; exact liveKey_ne_recKey cwd fp S
  simp only [commitPatch, hb]
  split
  · exact hlive
  · rename_i F' h1
    split
    · exact hlive
    · rename_i M h2
      have hw : writeFile cwd fs (pjoin (pjoin PATCHES_DIR fp) (fp ++ ".patch"))
            (diffCreate fp F' M "original" "modified") =
          fsSet fs (absPath cwd (pjoin (pjoin PATCHES_DIR fp) (fp ++ ".patch")))
            (Entry.file (diffCreate fp F' M "original" "modified")) :=
        writeFile_of_not_symlink _ (hrec (fp ++ ".patch"))
      rw [hw]
      split
      · rename_i f hu
        rw [unlinkFs_ok_inv hu, fsFind_fsRemove_ne _ (hldS fp),
          fsFind_fsSet_ne _ _ (hldS (fp ++ ".patch"))]
        exact hlive
      · rw [fsFind_fsSet_ne _ _ (hldS (fp ++ ".patch"))]
        exact hlive

theorem revertPatch_ok_regular (cwd fp : String) (fs fs' : FS)
    (hsl : ('/' : Char) ∉ fp.data)
    (hlive : (∃ c, fsFind fs (absPath cwd fp) = some (Entry.file c)) ∨
      ∃ t, fsFind fs (absPath cwd fp) = some (Entry.symlink t))
    (h : revertPatch cwd fp fs = (fs', none)) :
    ∃ c, fsFind fs' (absPath cwd fp) = some (Entry.file c) := by
  have hb : basename fp = fp := basename_no_slash hsl
  have habsL : absPath cwd fp = cwd ++ "/" ++ fp := absPath_rel_of_no_slash cwd hsl
  have habsS : ∀ S : String, absPath cwd (pjoin (pjoin PATCHES_DIR fp) S) =
      cwd ++ "/" ++ pjoin (pjoin PATCHES_DIR fp) S := fun S => absPath_rel cwd rfl
  have hldS : ∀ S, absPath cwd fp ≠ absPath cwd (pjoin (pjoin PATCHES_DIR fp) S) := by
    intro S; rw [habsL, habsS]; exact liveKey_ne_recKey cwd fp S
  simp only [revertPatch, hb] at h
  split at h
  · exact absurd (congrArg Prod.snd h) (by simp)
  · split at h
    · exact absurd (congrArg Prod.snd h) (by simp)
    · rename_i stats heq
      split at h
      · rename_i t
        split at h
        · exact absurd (congrArg Prod.snd h) (by simp)
        · rename_i fs₁ hu
          split at h
          · exact absurd (congrArg Prod.snd h) (by simp)
          · rename_i fs₂ hc
            have hfs₁ : fs₁ = fsRemove fs (absPath cwd fp) := unlinkFs_ok_inv hu
            obtain ⟨B, hrB, hfs₂⟩ := copyFileFs_ok_inv hc
            have hw : writeFile cwd fs₁ fp B =
                fsSet fs₁ (absPath cwd fp) (Entry.file B) := by
              apply writeFile_of_not_symlink
              intro u
              rw [hfs₁, fsFind_fsRemove_self]
              simp
            have hfind2 : fsFind fs₂ (absPath cwd fp) = some (Entry.file B) := by
              rw [hfs₂, hw, fsFind_fsSet_self]
            have hf : fs' = _ := (congrArg Prod.fst h).symm
            refine ⟨B, ?_⟩
            rw [hf]
            have hmid : ∀ fs₃ : FS, fsFind fs₃ (absPath cwd fp) = some (Entry.file B) →
                fsFind (match unlinkFs cwd fs₃
                    (pjoin (pjoin PATCHES_DIR fp) (fp ++ ".patched")) with
                  | Except.ok f => f
                  | Except.error _ => fs₃) (absPath cwd fp) = some (Entry.file B) := by
              intro fs₃ h₃
              split
              · rename_i f4 hu4
                rw [unlinkFs_ok_inv hu4, fsFind_fsRemove_ne _ (hldS (fp ++ ".patched"))]
                exact h₃
              · exact h₃
            apply hmid
            split
            · rename_i f3 hu3
              rw [unlinkFs_ok_inv hu3,
                fsFind_fsRemove_ne _ (hldS (fp ++ ".original.backup"))]
              exact hfind2
            · exact hfind2
      · rename_i hnotlink
        have hfs : fs' = fs := (congrArg Prod.fst h).symm
        subst hfs
        rcases hlive with ⟨c, hc⟩ | ⟨t, ht⟩
        · exact ⟨c, hc⟩
        · exfalso
          have : stats = Entry.symlink t := by
            have := @lstatFs_of_find cwd fp _ _ ht
            rw [heq] at this
            simpa using this
          exact hnotlink t this

/-- C5: the symlink type invariant.  (1) Whenever `applyPatch` succeeds, the
live path holds a symbolic link (pointing at the record's patched-result
path), so `lstat` reports a symbolic link.  (2) Before any apply, the live
path is a regular file: each non-apply operation (`createPatch`,
`commitPatch`, `revertPatch`) leaves a regular live file exactly as it was
(for a file tracked under a name other than the storage root, with the
record entries not being symbolic links, as in every lifecycle state).
(3) Whenever `revertPatch` succeeds on a live path that is a regular file or
a symbolic link, the live path is afterwards a regular file. -/
theorem C5_symlink_invariant :
    (∀ (cwd fp : String) (fs fs' : FS), applyPatch cwd fp fs = (fs', none) →
      fsFind fs' (absPath cwd fp) =
        some (Entry.symlink (pjoin (pjoin PATCHES_DIR (basename fp))
          (basename fp ++ ".patched")))) ∧
    (∀ (cwd fp F : String) (fs : FS), ('/' : Char) ∉ fp.data → fp ≠ "patches" →
      (∀ S t, fsFind fs (absPath cwd (pjoin (pjoin PATCHES_DIR fp) S)) ≠
        some (Entry.symlink t)) →
      fsFind fs (absPath cwd fp) = some (Entry.file F) →
      fsFind (createPatch cwd fp fs).1 (absPath cwd fp) = some (Entry.file F) ∧
      fsFind (commitPatch cwd fp fs).1 (absPath cwd fp) = some (Entry.file F) ∧
      fsFind (revertPatch cwd fp fs).1 (absPath cwd fp) = some (Entry.file F)) ∧
    (∀ (cwd fp : String) (fs fs' : FS), ('/' : Char) ∉ fp.data →
      ((∃ c, fsFind fs (absPath cwd fp) = some (Entry.file c)) ∨
        ∃ t, fsFind fs (absPath cwd fp) = some (Entry.symlink t)) →
      revertPatch cwd fp fs = (fs', none) →
      ∃ c, fsFind fs' (absPath cwd fp) = some (Entry.file c)) := by
  refine ⟨applyPatch_ok_live, ?_, revertPatch_ok_regular⟩
  intro cwd fp F fs hsl hp7 hrec hlive
  refine ⟨createPatch_live_preserved cwd fp F fs hsl hp7 hrec hlive,
    commitPatch_live_preserved cwd fp F fs hsl hrec hlive, ?_⟩
  have h1 : (revertPatch cwd fp fs).1 = fs := by
    rw [revert_regular_eq cwd fp F fs hlive]
  rw [h1]
  exact hlive

/-- C5 witness: a successful concrete apply leaves a symbolic link at the
live path; the non-apply operations leave a concrete regular live file
unchanged; a successful concrete revert leaves a regular file. -/
theorem C5_witness :
    fsFind (applyPatch "/cwd" "a.txt"
      [("/cwd/a.txt", Entry.file "hello"),
       ("/cwd/patches/a.txt/a.txt.patch",
        Entry.file "@@ -1,1 +1,1 @@\n-hello\n+world\n")]).1
      (absPath "/cwd" "a.txt") =
      some (Entry.symlink (pjoin (pjoin PATCHES_DIR (basename "a.txt"))
        (basename "a.txt" ++ ".patched"))) ∧
    (fsFind (createPatch "/cwd" "b.txt" [("/cwd/b.txt", Entry.file "F")]).1
        (absPath "/cwd" "b.txt") = some (Entry.file "F") ∧
      fsFind (commitPatch "/cwd" "b.txt" [("/cwd/b.txt", Entry.file "F")]).1
        (absPath "/cwd" "b.txt") = some (Entry.file "F") ∧
      fsFind (revertPatch "/cwd" "b.txt" [("/cwd/b.txt", Entry.file "F")]).1
        (absPath "/cwd" "b.txt") = some (Entry.file "F")) ∧
    ∃ c, fsFind (revertPatch "/cwd" "c.txt"
      [("/cwd/c.txt", Entry.file "x"),
       ("/cwd/patches/c.txt/c.txt.original.backup", Entry.file "b")]).1
      (absPath "/cwd" "c.txt") = some (Entry.file c) := by
  refine ⟨?_, ?_, ?_⟩
  · exact C5_symlink_invariant.1 "/cwd" "a.txt"
      [("/cwd/a.txt", Entry.file "hello"),
       ("/cwd/patches/a.txt/a.txt.patch",
        Entry.file "@@ -1,1 +1,1 @@\n-hello\n+world\n")] _ (by decide)
  · exact C5_symlink_invariant.2.1 "/cwd" "b.txt" "F" _ (by decide) (by decide)
      (by
        intro S t h
        simp only [fsFind] at h
        split at h <;> simp_all)
      (by decide)
  · exact C5_symlink_invariant.2.2 "/cwd" "c.txt"
      [("/cwd/c.txt", Entry.file "x"),
       ("/cwd/patches/c.txt/c.txt.original.backup", Entry.file "b")] _ (by decide)
      (Or.inl ⟨"x", by decide⟩) (by decide)

/-! ## The successful apply and revert transitions, as explicit states -/

theorem resolveLink_rel (cwd fp target : String) (hsl : ('/' : Char) ∉ fp.data)
    (hcwd : cwd ≠ "") (htgt : strHasPre "/" target = false) :
    resolveLink (cwd ++ "/" ++ fp) target = cwd ++ "/" ++ target := by
  unfold resolveLink
  rw [htgt, dirname_concat cwd hsl]
  simp [hcwd]

theorem applyPatch_on_file (cwd fp F c R : String) (fs : FS)
    (hsl : ('/' : Char) ∉ fp.data)
    (hlive : fsFind fs (absPath cwd fp) = some (Entry.file F))
    (hpatch : readFile cwd fs (pjoin (pjoin PATCHES_DIR fp) (fp ++ ".patch")) =
      Except.ok c)
    (happly : diffApply F ((parsePatch c).headD { hunks := [] }) 3 = some R)
    (hpd : ∀ t, fsFind fs
      (absPath cwd (pjoin (pjoin PATCHES_DIR fp) (fp ++ ".patched"))) ≠
      some (Entry.symlink t))
    (hbk : ∀ t, fsFind fs
      (absPath cwd (pjoin (pjoin PATCHES_DIR fp) (fp ++ ".original.backup"))) ≠
      some (Entry.symlink t)) :
    applyPatch cwd fp fs =
      (fsSet (fsRemove (fsSet
          (fsSet fs (absPath cwd (pjoin (pjoin PATCHES_DIR fp) (fp ++ ".patched")))
            (Entry.file R))
          (absPath cwd (pjoin (pjoin PATCHES_DIR fp) (fp ++ ".original.backup")))
          (Entry.file F))
        (absPath cwd fp))
        (absPath cwd fp)
        (Entry.symlink (pjoin (pjoin PATCHES_DIR fp) (fp ++ ".patched"))), none) := by
  have hb : basename fp = fp := basename_no_slash hsl
  have habsL : absPath cwd fp = cwd ++ "/" ++ fp := absPath_rel_of_no_slash cwd hsl
  have habsS : ∀ S : String, absPath cwd (pjoin (pjoin PATCHES_DIR fp) S) =
      cwd ++ "/" ++ pjoin (pjoin PATCHES_DIR fp) S := fun S => absPath_rel cwd rfl
  have hldS : ∀ S, absPath cwd fp ≠ absPath cwd (pjoin (pjoin PATCHES_DIR fp) S) := by
    intro S; rw [habsL, habsS]; exact liveKey_ne_recKey cwd fp S
  have hbkpd : absPath cwd (pjoin (pjoin PATCHES_DIR fp) (fp ++ ".original.backup")) ≠
      absPath cwd (pjoin (pjoin PATCHES_DIR fp) (fp ++ ".patched")) := by
    rw [habsS, habsS]; exact recKey_ne_recKey cwd fp (backup_ne_patched fp)
  have hr1 : readFile cwd fs fp = Except.ok F := readFile_of_file hlive
  have hw1 : writeFile cwd fs (pjoin (pjoin PATCHES_DIR fp) (fp ++ ".patched")) R =
      fsSet fs (absPath cwd (pjoin (pjoin PATCHES_DIR fp) (fp ++ ".patched")))
        (Entry.file R) :=
    writeFile_of_not_symlink R hpd
  have hrd : readFile cwd
      (fsSet fs (absPath cwd (pjoin (pjoin PATCHES_DIR fp) (fp ++ ".patched")))
        (Entry.file R)) fp = Except.ok F :=
    readFile_of_file (by rw [fsFind_fsSet_ne _ _ (hldS (fp ++ ".patched"))]; exact hlive)
  have hcopy : copyFileFs cwd
      (fsSet fs (absPath cwd (pjoin (pjoin PATCHES_DIR fp) (fp ++ ".patched")))
        (Entry.file R)) fp
      (pjoin (pjoin PATCHES_DIR fp) (fp ++ ".original.backup")) =
      Except.ok (fsSet
        (fsSet fs (absPath cwd (pjoin (pjoin PATCHES_DIR fp) (fp ++ ".patched")))
          (Entry.file R))
        (absPath cwd (pjoin (pjoin PATCHES_DIR fp) (fp ++ ".original.backup")))
        (Entry.file F)) := by
    simp only [copyFileFs, hrd]
    rw [writeFile_of_not_symlink F
      (fun t => by rw [fsFind_fsSet_ne _ _ hbkpd]; exact hbk t)]
  have hunl : unlinkFs cwd
      (fsSet (fsSet fs (absPath cwd (pjoin (pjoin PATCHES_DIR fp) (fp ++ ".patched")))
          (Entry.file R))
        (absPath cwd (pjoin (pjoin PATCHES_DIR fp) (fp ++ ".original.backup")))
        (Entry.file F)) fp =
      Except.ok (fsRemove
        (fsSet (fsSet fs (absPath cwd (pjoin (pjoin PATCHES_DIR fp) (fp ++ ".patched")))
            (Entry.file R))
          (absPath cwd (pjoin (pjoin PATCHES_DIR fp) (fp ++ ".original.backup")))
          (Entry.file F))
        (absPath cwd fp)) :=
    unlinkFs_of_file (by
      rw [fsFind_fsSet_ne _ _ (hldS (fp ++ ".original.backup")),
        fsFind_fsSet_ne _ _ (hldS (fp ++ ".patched"))]
      exact hlive)
  have hsym : symlinkFs cwd
      (fsRemove
        (fsSet (fsSet fs (absPath cwd (pjoin (pjoin PATCHES_DIR fp) (fp ++ ".patched")))
            (Entry.file R))
          (absPath cwd (pjoin (pjoin PATCHES_DIR fp) (fp ++ ".original.backup")))
          (Entry.file F))
        (absPath cwd fp))
      (pjoin (pjoin PATCHES_DIR fp) (fp ++ ".patched")) fp =
      Except.ok (fsSet (fsRemove
        (fsSet (fsSet fs (absPath cwd (pjoin (pjoin PATCHES_DIR fp) (fp ++ ".patched")))
            (Entry.file R))
          (absPath cwd (pjoin (pjoin PATCHES_DIR fp) (fp ++ ".original.backup")))
          (Entry.file F))
        (absPath cwd fp))
        (absPath cwd fp)
        (Entry.symlink (pjoin (pjoin PATCHES_DIR fp) (fp ++ ".patched")))) :=
    symlinkFs_of_none _ (by rw [fsFind_fsRemove_self])
  simp only [applyPatch, hb, accessOk_of_readFile_ok hpatch, hr1, hpatch, happly,
    hw1, hcopy, hunl, hsym]
  simp

theorem revertPatch_on_symlink (cwd fp B t : String) (fs : FS)
    (hsl : ('/' : Char) ∉ fp.data)
    (hlive : fsFind fs (absPath cwd fp) = some (Entry.symlink t))
    (hbk : fsFind fs
      (absPath cwd (pjoin (pjoin PATCHES_DIR fp) (fp ++ ".original.backup"))) =
      some (Entry.file B)) :
    (revertPatch cwd fp fs).2 = none ∧
    fsFind (revertPatch cwd fp fs).1 (absPath cwd fp) = some (Entry.file B) := by
  have hb : basename fp = fp := basename_no_slash hsl
  have habsL : absPath cwd fp = cwd ++ "/" ++ fp := absPath_rel_of_no_slash cwd hsl
  have habsS : ∀ S : String, absPath cwd (pjoin (pjoin PATCHES_DIR fp) S) =
      cwd ++ "/" ++ pjoin (pjoin PATCHES_DIR fp) S := fun S => absPath_rel cwd rfl
  have hldS : ∀ S, absPath cwd fp ≠ absPath cwd (pjoin (pjoin PATCHES_DIR fp) S) := by
    intro S; rw [habsL, habsS]; exact liveKey_ne_recKey cwd fp S
  have hrB : readFile cwd (fsRemove fs (absPath cwd fp))
      (pjoin (pjoin PATCHES_DIR fp) (fp ++ ".original.backup")) = Except.ok B :=
    readFile_of_file (by
      rw [fsFind_fsRemove_ne _ (Ne.symm (hldS (fp ++ ".original.backup")))]
      exact hbk)
  have hcopy : copyFileFs cwd (fsRemove fs (absPath cwd fp))
      (pjoin (pjoin PATCHES_DIR fp) (fp ++ ".original.backup")) fp =
      Except.ok (fsSet (fsRemove fs (absPath cwd fp)) (absPath cwd fp)
        (Entry.file B)) := by
    simp only [copyFileFs, hrB]
    rw [writeFile_of_not_symlink B (fun u => by rw [fsFind_fsRemove_self]; simp)]
  simp only [revertPatch, hb, accessOk_of_file hbk, lstatFs_of_find hlive,
    unlinkFs_of_symlink hlive, hcopy]
  refine ⟨by simp, ?_⟩
  have hfind2 : fsFind (fsSet (fsRemove fs (absPath cwd fp)) (absPath cwd fp)
      (Entry.file B)) (absPath cwd fp) = some (Entry.file B) := fsFind_fsSet_self _ _ _
  have hmid : ∀ fs₃ : FS, fsFind fs₃ (absPath cwd fp) = some (Entry.file B) →
      fsFind (match unlinkFs cwd fs₃
          (pjoin (pjoin PATCHES_DIR fp) (fp ++ ".patched")) with
        | Except.ok f => f
        | Except.error _ => fs₃) (absPath cwd fp) = some (Entry.file B) := by
    intro fs₃ h₃
    split
    · rename_i f4 hu4
      rw [unlinkFs_ok_inv hu4, fsFind_fsRemove_ne _ (hldS (fp ++ ".patched"))]
      exact h₃
    · exact h₃
  apply hmid
  split
  · rename_i f3 hu3
    rw [unlinkFs_ok_inv hu3, fsFind_fsRemove_ne _ (hldS (fp ++ ".original.backup"))]
    exact hfind2
  · exact hfind2

/-- C4: a successful `applyPatch` followed by `revertPatch` on the same file
(with no intervening mutation) restores the live file byte-identically to
its content immediately before the apply, and the live path is again a
regular file. -/
theorem C4_revert_restores (cwd fp F c R : String) (fs : FS)
    (hsl : ('/' : Char) ∉ fp.data)
    (hlive : fsFind fs (absPath cwd fp) = some (Entry.file F))
    (hpatch : readFile cwd fs (pjoin (pjoin PATCHES_DIR fp) (fp ++ ".patch")) =
      Except.ok c)
    (happly : diffApply F ((parsePatch c).headD { hunks := [] }) 3 = some R)
    (hpd : ∀ t, fsFind fs
      (absPath cwd (pjoin (pjoin PATCHES_DIR fp) (fp ++ ".patched"))) ≠
      some (Entry.symlink t))
    (hbk : ∀ t, fsFind fs
      (absPath cwd (pjoin (pjoin PATCHES_DIR fp) (fp ++ ".original.backup"))) ≠
      some (Entry.symlink t)) :
    (applyPatch cwd fp fs).2 = none ∧
    (revertPatch cwd fp (applyPatch cwd fp fs).1).2 = none ∧
    fsFind (revertPatch cwd fp (applyPatch cwd fp fs).1).1 (absPath cwd fp) =
      some (Entry.file F) := by
  have habsL : absPath cwd fp = cwd ++ "/" ++ fp := absPath_rel_of_no_slash cwd hsl
  have habsS : ∀ S : String, absPath cwd (pjoin (pjoin PATCHES_DIR fp) S) =
      cwd ++ "/" ++ pjoin (pjoin PATCHES_DIR fp) S := fun S => absPath_rel cwd rfl
  have hldS : ∀ S, absPath cwd fp ≠ absPath cwd (pjoin (pjoin PATCHES_DIR fp) S) := by
    intro S; rw [habsL, habsS]; exact liveKey_ne_recKey cwd fp S
  have hap := applyPatch_on_file cwd fp F c R fs hsl hlive hpatch happly hpd hbk
  have h1 : (applyPatch cwd fp fs).1 =
      fsSet (fsRemove (fsSet
          (fsSet fs (absPath cwd (pjoin (pjoin PATCHES_DIR fp) (fp ++ ".patched")))
            (Entry.file R))
          (absPath cwd (pjoin (pjoin PATCHES_DIR fp) (fp ++ ".original.backup")))
          (Entry.file F))
        (absPath cwd fp))
        (absPath cwd fp)
        (Entry.symlink (pjoin (pjoin PATCHES_DIR fp) (fp ++ ".patched"))) := by
    rw [hap]
  have hlive' : fsFind (applyPatch cwd fp fs).1 (absPath cwd fp) =
      some (Entry.symlink (pjoin (pjoin PATCHES_DIR fp) (fp ++ ".patched"))) := by
    rw [h1, fsFind_fsSet_self]
  have hbk' : fsFind (applyPatch cwd fp fs).1
      (absPath cwd (pjoin (pjoin PATCHES_DIR fp) (fp ++ ".original.backup"))) =
      some (Entry.file F) := by
    rw [h1, fsFind_fsSet_ne _ _ (Ne.symm (hldS (fp ++ ".original.backup"))),
      fsFind_fsRemove_ne _ (Ne.symm (hldS (fp ++ ".original.backup"))),
      fsFind_fsSet_self]
  have hrev := revertPatch_on_symlink cwd fp F
    (pjoin (pjoin PATCHES_DIR fp) (fp ++ ".patched")) (applyPatch cwd fp fs).1
    hsl hlive' hbk'
  exact ⟨by rw [hap], hrev.1, hrev.2⟩

/-- C4 witness: concrete apply of hello→world then revert; the live file is
again a regular file containing the pre-apply bytes "hello". -/
theorem C4_witness :
    (applyPatch "/cwd" "a.txt"
      [("/cwd/a.txt", Entry.file "hello"),
       ("/cwd/patches/a.txt/a.txt.patch",
        Entry.file "@@ -1,1 +1,1 @@\n-hello\n+world\n")]).2 = none ∧
    (revertPatch "/cwd" "a.txt" (applyPatch "/cwd" "a.txt"
      [("/cwd/a.txt", Entry.file "hello"),
       ("/cwd/patches/a.txt/a.txt.patch",
        Entry.file "@@ -1,1 +1,1 @@\n-hello\n+world\n")]).1).2 = none ∧
    fsFind (revertPatch "/cwd" "a.txt" (applyPatch "/cwd" "a.txt"
      [("/cwd/a.txt", Entry.file "hello"),
       ("/cwd/patches/a.txt/a.txt.patch",
        Entry.file "@@ -1,1 +1,1 @@\n-hello\n+world\n")]).1).1
      (absPath "/cwd" "a.txt") = some (Entry.file "hello") :=
  C4_revert_restores "/cwd" "a.txt" "hello" "@@ -1,1 +1,1 @@\n-hello\n+world\n"
    "world" _ (by decide) (by decide) (by rfl) (by decide)
    (fun t h => Option.noConfusion h) (fun t h => Option.noConfusion h)

/-- C8 counterexample: for a live file in a subdirectory ("sub/a.txt"),
`applyPatch` succeeds and writes the patched result, but the symbolic link
it creates stores the cwd-relative string "patches/a.txt/a.txt.patched",
which resolves relative to the link's own directory ("/cwd/sub") and
therefore does not point at the record's patched-result file: the live path
fails to resolve at all, refuting the claim as stated. -/
theorem C8_counterexample :
    (applyPatch "/cwd" "sub/a.txt"
      [("/cwd/sub/a.txt", Entry.file "hello"),
       ("/cwd/patches/a.txt/a.txt.patch",
        Entry.file "@@ -1,1 +1,1 @@\n-hello\n+world\n")]).2 = none ∧
    fsFind (applyPatch "/cwd" "sub/a.txt"
      [("/cwd/sub/a.txt", Entry.file "hello"),
       ("/cwd/patches/a.txt/a.txt.patch",
        Entry.file "@@ -1,1 +1,1 @@\n-hello\n+world\n")]).1
      (absPath "/cwd" (pjoin (pjoin PATCHES_DIR (basename "sub/a.txt"))
        (basename "sub/a.txt" ++ ".patched"))) = some (Entry.file "world") ∧
    readFile "/cwd" (applyPatch "/cwd" "sub/a.txt"
      [("/cwd/sub/a.txt", Entry.file "hello"),
       ("/cwd/patches/a.txt/a.txt.patch",
        Entry.file "@@ -1,1 +1,1 @@\n-hello\n+world\n")]).1 "sub/a.txt" =
      Except.error Err.notFound := by
  decide

/-- C8 (amended): for every successful `applyPatch` on a live file residing
in the working directory (path without a separator), the symbolic link
created at the live file path stores the record's patched-result path, the
live path resolves to the patched-result content, and the pre-apply backup
copy holds the live file's pre-apply bytes (the copy completed before the
live path was deleted). -/
theorem C8_symlink_target (cwd fp F c R : String) (fs : FS)
    (hcwd : cwd ≠ "") (hsl : ('/' : Char) ∉ fp.data)
    (hlive : fsFind fs (absPath cwd fp) = some (Entry.file F))
    (hpatch : readFile cwd fs (pjoin (pjoin PATCHES_DIR fp) (fp ++ ".patch")) =
      Except.ok c)
    (happly : diffApply F ((parsePatch c).headD { hunks := [] }) 3 = some R)
    (hpd : ∀ t, fsFind fs
      (absPath cwd (pjoin (pjoin PATCHES_DIR fp) (fp ++ ".patched"))) ≠
      some (Entry.symlink t))
    (hbk : ∀ t, fsFind fs
      (absPath cwd (pjoin (pjoin PATCHES_DIR fp) (fp ++ ".original.backup"))) ≠
      some (Entry.symlink t)) :
    (applyPatch cwd fp fs).2 = none ∧
    fsFind (applyPatch cwd fp fs).1 (absPath cwd fp) =
      some (Entry.symlink (pjoin (pjoin PATCHES_DIR fp) (fp ++ ".patched"))) ∧
    readFile cwd (applyPatch cwd fp fs).1 fp = Except.ok R ∧
    fsFind (applyPatch cwd fp fs).1
      (absPath cwd (pjoin (pjoin PATCHES_DIR fp) (fp ++ ".original.backup"))) =
      some (Entry.file F) := by
  have habsL : absPath cwd fp = cwd ++ "/" ++ fp := absPath_rel_of_no_slash cwd hsl
  have habsS : ∀ S : String, absPath cwd (pjoin (pjoin PATCHES_DIR fp) S) =
      cwd ++ "/" ++ pjoin (pjoin PATCHES_DIR fp) S := fun S => absPath_rel cwd rfl
  have hldS : ∀ S, absPath cwd fp ≠ absPath cwd (pjoin (pjoin PATCHES_DIR fp) S) := by
    intro S; rw [habsL, habsS]; exact liveKey_ne_recKey cwd fp S
  have hbkpd : absPath cwd (pjoin (pjoin PATCHES_DIR fp) (fp ++ ".original.backup")) ≠
      absPath cwd (pjoin (pjoin PATCHES_DIR fp) (fp ++ ".patched")) := by
    rw [habsS, habsS]; exact recKey_ne_recKey cwd fp (backup_ne_patched fp)
  have hap := applyPatch_on_file cwd fp F c R fs hsl hlive hpatch happly hpd hbk
  have h1 : (applyPatch cwd fp fs).1 =
      fsSet (fsRemove (fsSet
          (fsSet fs (absPath cwd (pjoin (pjoin PATCHES_DIR fp) (fp ++ ".patched")))
            (Entry.file R))
          (absPath cwd (pjoin (pjoin PATCHES_DIR fp) (fp ++ ".original.backup")))
          (Entry.file F))
        (absPath cwd fp))
        (absPath cwd fp)
        (Entry.symlink (pjoin (pjoin PATCHES_DIR fp) (fp ++ ".patched"))) := by
    rw [hap]
  have hlive' : fsFind (applyPatch cwd fp fs).1 (absPath cwd fp) =
      some (Entry.symlink (pjoin (pjoin PATCHES_DIR fp) (fp ++ ".patched"))) := by
    rw [h1, fsFind_fsSet_self]
  have hpd' : fsFind (applyPatch cwd fp fs).1
      (absPath cwd (pjoin (pjoin PATCHES_DIR fp) (fp ++ ".patched"))) =
      some (Entry.file R) := by
    rw [h1, fsFind_fsSet_ne _ _ (Ne.symm (hldS (fp ++ ".patched"))),
      fsFind_fsRemove_ne _ (Ne.symm (hldS (fp ++ ".patched"))),
      fsFind_fsSet_ne _ _ (Ne.symm hbkpd), fsFind_fsSet_self]
  have hres : resolveLink (absPath cwd fp)
      (pjoin (pjoin PATCHES_DIR fp) (fp ++ ".patched")) =
      absPath cwd (pjoin (pjoin PATCHES_DIR fp) (fp ++ ".patched")) := by
    rw [habsL, resolveLink_rel cwd fp
      (pjoin (pjoin PATCHES_DIR fp) (fp ++ ".patched")) hsl hcwd rfl, habsS]
  refine ⟨by rw [hap], hlive', readFile_of_symlink hlive' (by rw [hres]; exact hpd'), ?_⟩
  rw [h1, fsFind_fsSet_ne _ _ (Ne.symm (hldS (fp ++ ".original.backup"))),
    fsFind_fsRemove_ne _ (Ne.symm (hldS (fp ++ ".original.backup"))), fsFind_fsSet_self]

/-- C8 witness: a concrete in-cwd apply; the live path is a symbolic link
resolving to the patched content "world" and the backup holds "hello". -/
theorem C8_witness :
    (applyPatch "/cwd" "a.txt"
      [("/cwd/a.txt", Entry.file "hello"),
       ("/cwd/patches/a.txt/a.txt.patch",
        Entry.file "@@ -1,1 +1,1 @@\n-hello\n+world\n")]).2 = none ∧
    fsFind (applyPatch "/cwd" "a.txt"
      [("/cwd/a.txt", Entry.file "hello"),
       ("/cwd/patches/a.txt/a.txt.patch",
        Entry.file "@@ -1,1 +1,1 @@\n-hello\n+world\n")]).1 (absPath "/cwd" "a.txt") =
      some (Entry.symlink (pjoin (pjoin PATCHES_DIR "a.txt") ("a.txt" ++ ".patched"))) ∧
    readFile "/cwd" (applyPatch "/cwd" "a.txt"
      [("/cwd/a.txt", Entry.file "hello"),
       ("/cwd/patches/a.txt/a.txt.patch",
        Entry.file "@@ -1,1 +1,1 @@\n-hello\n+world\n")]).1 "a.txt" = Except.ok "world" ∧
    fsFind (applyPatch "/cwd" "a.txt"
      [("/cwd/a.txt", Entry.file "hello"),
       ("/cwd/patches/a.txt/a.txt.patch",
        Entry.file "@@ -1,1 +1,1 @@\n-hello\n+world\n")]).1
      (absPath "/cwd" (pjoin (pjoin PATCHES_DIR "a.txt") ("a.txt" ++ ".original.backup"))) =
      some (Entry.file "hello") :=
  C8_symlink_target "/cwd" "a.txt" "hello" "@@ -1,1 +1,1 @@\n-hello\n+world\n" "world" _
    (by decide) (by decide) (by decide) (by rfl) (by decide)
    (fun t h => Option.noConfusion h) (fun t h => Option.noConfusion h)

/-- C6 counterexample: `applyPatch` performs no symlink check.  After one
successful apply the live path is a symbolic link, yet a second `applyPatch`
from that state still succeeds (here with a patch that matches the resolved
content again), refuting "applyPatch does not proceed when the live path is
already a symbolic link from a prior apply". -/
theorem C6_counterexample :
    fsFind (applyPatch "/cwd" "a.txt"
      [("/cwd/a.txt", Entry.file "hello"),
       ("/cwd/patches/a.txt/a.txt.patch",
        Entry.file "@@ -1,1 +1,1 @@\n-hello\n+hello\n")]).1
      (absPath "/cwd" "a.txt") =
      some (Entry.symlink "patches/a.txt/a.txt.patched") ∧
    (applyPatch "/cwd" "a.txt" (applyPatch "/cwd" "a.txt"
      [("/cwd/a.txt", Entry.file "hello"),
       ("/cwd/patches/a.txt/a.txt.patch",
        Entry.file "@@ -1,1 +1,1 @@\n-hello\n+hello\n")]).1).2 = none := by
  decide

/-- C6 (amended): `applyPatch` requires a committed record (the patch text
must exist and be readable) and a readable live path, but performs no
symlink check: when the live path is already the symbolic link planted by a
prior apply and the patch still matches the resolved content, `applyPatch`
proceeds and succeeds — overwriting the backup with the re-resolved (newly
patched) content rather than preserving the original backup. -/
theorem C6_apply_ignores_symlink (cwd fp F c R : String) (fs : FS)
    (hcwd : cwd ≠ "") (hsl : ('/' : Char) ∉ fp.data)
    (hlive : fsFind fs (absPath cwd fp) =
      some (Entry.symlink (pjoin (pjoin PATCHES_DIR fp) (fp ++ ".patched"))))
    (hpatched : fsFind fs
      (absPath cwd (pjoin (pjoin PATCHES_DIR fp) (fp ++ ".patched"))) =
      some (Entry.file F))
    (hpatch : readFile cwd fs (pjoin (pjoin PATCHES_DIR fp) (fp ++ ".patch")) =
      Except.ok c)
    (happly : diffApply F ((parsePatch c).headD { hunks := [] }) 3 = some R)
    (hbk : ∀ t, fsFind fs
      (absPath cwd (pjoin (pjoin PATCHES_DIR fp) (fp ++ ".original.backup"))) ≠
      some (Entry.symlink t)) :
    (applyPatch cwd fp fs).2 = none ∧
    fsFind (applyPatch cwd fp fs).1 (absPath cwd fp) =
      some (Entry.symlink (pjoin (pjoin PATCHES_DIR fp) (fp ++ ".patched"))) ∧
    fsFind (applyPatch cwd fp fs).1
      (absPath cwd (pjoin (pjoin PATCHES_DIR fp) (fp ++ ".original.backup"))) =
      some (Entry.file R) := by
  have hb : basename fp = fp := basename_no_slash hsl
  have habsL : absPath cwd fp = cwd ++ "/" ++ fp := absPath_rel_of_no_slash cwd hsl
  have habsS : ∀ S : String, absPath cwd (pjoin (pjoin PATCHES_DIR fp) S) =
      cwd ++ "/" ++ pjoin (pjoin PATCHES_DIR fp) S := fun S => absPath_rel cwd rfl
  have hldS : ∀ S, absPath cwd fp ≠ absPath cwd (pjoin (pjoin PATCHES_DIR fp) S) := by
    intro S; rw [habsL, habsS]; exact liveKey_ne_recKey cwd fp S
  have hbkpd : absPath cwd (pjoin (pjoin PATCHES_DIR fp) (fp ++ ".original.backup")) ≠
      absPath cwd (pjoin (pjoin PATCHES_DIR fp) (fp ++ ".patched")) := by
    rw [habsS, habsS]; exact recKey_ne_recKey cwd fp (backup_ne_patched fp)
  have hres : resolveLink (absPath cwd fp)
      (pjoin (pjoin PATCHES_DIR fp) (fp ++ ".patched")) =
      absPath cwd (pjoin (pjoin PATCHES_DIR fp) (fp ++ ".patched")) := by
    rw [habsL, resolveLink_rel cwd fp
      (pjoin (pjoin PATCHES_DIR fp) (fp ++ ".patched")) hsl hcwd rfl, habsS]
  have hr1 : readFile cwd fs fp = Except.ok F :=
    readFile_of_symlink hlive (by rw [hres]; exact hpatched)
  have hw1 : writeFile cwd fs (pjoin (pjoin PATCHES_DIR fp) (fp ++ ".patched")) R =
      fsSet fs (absPath cwd (pjoin (pjoin PATCHES_DIR fp) (fp ++ ".patched")))
        (Entry.file R) :=
    writeFile_of_file R hpatched
  have hlive1 : fsFind
      (fsSet fs (absPath cwd (pjoin (pjoin PATCHES_DIR fp) (fp ++ ".patched")))
        (Entry.file R)) (absPath cwd fp) =
      some (Entry.symlink (pjoin (pjoin PATCHES_DIR fp) (fp ++ ".patched"))) := by
    rw [fsFind_fsSet_ne _ _ (hldS (fp ++ ".patched"))]; exact hlive
  have hrd : readFile cwd
      (fsSet fs (absPath cwd (pjoin (pjoin PATCHES_DIR fp) (fp ++ ".patched")))
        (Entry.file R)) fp = Except.ok R :=
    readFile_of_symlink hlive1 (by rw [hres, fsFind_fsSet_self])
  have hcopy : copyFileFs cwd
      (fsSet fs (absPath cwd (pjoin (pjoin PATCHES_DIR fp) (fp ++ ".patched")))
        (Entry.file R)) fp
      (pjoin (pjoin PATCHES_DIR fp) (fp ++ ".original.backup")) =
      Except.ok (fsSet
        (fsSet fs (absPath cwd (pjoin (pjoin PATCHES_DIR fp) (fp ++ ".patched")))
          (Entry.file R))
        (absPath cwd (pjoin (pjoin PATCHES_DIR fp) (fp ++ ".original.backup")))
        (Entry.file R)) := by
    simp only [copyFileFs, hrd]
    rw [writeFile_of_not_symlink R
      (fun t => by rw [fsFind_fsSet_ne _ _ hbkpd]; exact hbk t)]
  have hunl : unlinkFs cwd
      (fsSet (fsSet fs (absPath cwd (pjoin (pjoin PATCHES_DIR fp) (fp ++ ".patched")))
          (Entry.file R))
        (absPath cwd (pjoin (pjoin PATCHES_DIR fp) (fp ++ ".original.backup")))
        (Entry.file R)) fp =
      Except.ok (fsRemove
        (fsSet (fsSet fs (absPath cwd (pjoin (pjoin PATCHES_DIR fp) (fp ++ ".patched")))
            (Entry.file R))
          (absPath cwd (pjoin (pjoin PATCHES_DIR fp) (fp ++ ".original.backup")))
          (Entry.file R))
        (absPath cwd fp)) :=
    unlinkFs_of_symlink (by
      rw [fsFind_fsSet_ne _ _ (hldS (fp ++ ".original.backup")),
        fsFind_fsSet_ne _ _ (hldS (fp ++ ".patched"))]
      exact hlive)
  have hsym : symlinkFs cwd
      (fsRemove
        (fsSet (fsSet fs (absPath cwd (pjoin (pjoin PATCHES_DIR fp) (fp ++ ".patched")))
            (Entry.file R))
          (absPath cwd (pjoin (pjoin PATCHES_DIR fp) (fp ++ ".original.backup")))
          (Entry.file R))
        (absPath cwd fp))
      (pjoin (pjoin PATCHES_DIR fp) (fp ++ ".patched")) fp =
      Except.ok (fsSet (fsRemove
        (fsSet (fsSet fs (absPath cwd (pjoin (pjoin PATCHES_DIR fp) (fp ++ ".patched")))
            (Entry.file R))
          (absPath cwd (pjoin (pjoin PATCHES_DIR fp) (fp ++ ".original.backup")))
          (Entry.file R))
        (absPath cwd fp))
        (absPath cwd fp)
        (Entry.symlink (pjoin (pjoin PATCHES_DIR fp) (fp ++ ".patched")))) :=
    symlinkFs_of_none _ (by rw [fsFind_fsRemove_self])
  simp only [applyPatch, hb, accessOk_of_readFile_ok hpatch, hr1, hpatch, happly,
    hw1, hcopy, hunl, hsym, Bool.true_eq_false, if_false]
  refine ⟨by simp, by simp [fsFind_fsSet_self], ?_⟩
  rw [fsFind_fsSet_ne _ _ (Ne.symm (hldS (fp ++ ".original.backup"))),
    fsFind_fsRemove_ne _ (Ne.symm (hldS (fp ++ ".original.backup"))),
    fsFind_fsSet_self]

/-- C6 witness: a second apply from the concrete post-apply state of an
identity patch succeeds, and the backup afterwards holds the re-patched
content. -/
theorem C6_witness :
    (applyPatch "/cwd" "a.txt" (applyPatch "/cwd" "a.txt"
      [("/cwd/a.txt", Entry.file "hello"),
       ("/cwd/patches/a.txt/a.txt.patch",
        Entry.file "@@ -1,1 +1,1 @@\n-hello\n+hello\n")]).1).2 = none ∧
    fsFind (applyPatch "/cwd" "a.txt" (applyPatch "/cwd" "a.txt"
      [("/cwd/a.txt", Entry.file "hello"),
       ("/cwd/patches/a.txt/a.txt.patch",
        Entry.file "@@ -1,1 +1,1 @@\n-hello\n+hello\n")]).1).1
      (absPath "/cwd" "a.txt") =
      some (Entry.symlink (pjoin (pjoin PATCHES_DIR "a.txt") ("a.txt" ++ ".patched"))) ∧
    fsFind (applyPatch "/cwd" "a.txt" (applyPatch "/cwd" "a.txt"
      [("/cwd/a.txt", Entry.file "hello"),
       ("/cwd/patches/a.txt/a.txt.patch",
        Entry.file "@@ -1,1 +1,1 @@\n-hello\n+hello\n")]).1).1
      (absPath "/cwd" (pjoin (pjoin PATCHES_DIR "a.txt") ("a.txt" ++ ".original.backup"))) =
      some (Entry.file "hello") :=
  C6_apply_ignores_symlink "/cwd" "a.txt" "hello" "@@ -1,1 +1,1 @@\n-hello\n+hello\n"
    "hello" _ (by decide) (by decide) (by decide) (by decide) (by decide) (by decide)
    (fun t h => Entry.noConfusion (Option.some.inj h))

theorem headD_congr {α : Type} (d : α) {l₁ l₂ : List α} (h : l₁.head? = l₂.head?) :
    l₁.headD d = l₂.headD d := by
  cases l₁ <;> cases l₂ <;> simp_all

/-- C10: `applyPatch` applies only the first patch parsed from the stored
patch document: two documents with the same first parsed patch lead to the
same outcome (same error report, and identical filesystems at every path
other than the patch file itself), so every patch after the first is
silently ignored. -/
theorem C10_only_first_patch (cwd fp F c₁ c₂ : String) (fs : FS)
    (hsl : ('/' : Char) ∉ fp.data)
    (hlive : fsFind fs (absPath cwd fp) = some (Entry.file F))
    (hhead : (parsePatch c₁).head? = (parsePatch c₂).head?)
    (hpd : ∀ t, fsFind fs
      (absPath cwd (pjoin (pjoin PATCHES_DIR fp) (fp ++ ".patched"))) ≠
      some (Entry.symlink t))
    (hbk : ∀ t, fsFind fs
      (absPath cwd (pjoin (pjoin PATCHES_DIR fp) (fp ++ ".original.backup"))) ≠
      some (Entry.symlink t)) :
    (applyPatch cwd fp (fsSet fs
      (absPath cwd (pjoin (pjoin PATCHES_DIR fp) (fp ++ ".patch")))
      (Entry.file c₁))).2 =
    (applyPatch cwd fp (fsSet fs
      (absPath cwd (pjoin (pjoin PATCHES_DIR fp) (fp ++ ".patch")))
      (Entry.file c₂))).2 ∧
    ∀ q, q ≠ absPath cwd (pjoin (pjoin PATCHES_DIR fp) (fp ++ ".patch")) →
      fsFind (applyPatch cwd fp (fsSet fs
        (absPath cwd (pjoin (pjoin PATCHES_DIR fp) (fp ++ ".patch")))
        (Entry.file c₁))).1 q =
      fsFind (applyPatch cwd fp (fsSet fs
        (absPath cwd (pjoin (pjoin PATCHES_DIR fp) (fp ++ ".patch")))
        (Entry.file c₂))).1 q := by
  have hb : basename fp = fp := basename_no_slash hsl
  have habsL : absPath cwd fp = cwd ++ "/" ++ fp := absPath_rel_of_no_slash cwd hsl
  have habsS : ∀ S : String, absPath cwd (pjoin (pjoin PATCHES_DIR fp) S) =
      cwd ++ "/" ++ pjoin (pjoin PATCHES_DIR fp) S := fun S => absPath_rel cwd rfl
  have hldS : ∀ S, absPath cwd fp ≠ absPath cwd (pjoin (pjoin PATCHES_DIR fp) S) := by
    intro S; rw [habsL, habsS]; exact liveKey_ne_recKey cwd fp S
  have hSne : ∀ S₁ S₂ : String, S₁ ≠ S₂ →
      absPath cwd (pjoin (pjoin PATCHES_DIR fp) S₁) ≠
      absPath cwd (pjoin (pjoin PATCHES_DIR fp) S₂) := by
    intro S₁ S₂ h
    rw [habsS, habsS]; exact recKey_ne_recKey cwd fp h
  have hlive₁ : fsFind (fsSet fs
      (absPath cwd (pjoin (pjoin PATCHES_DIR fp) (fp ++ ".patch"))) (Entry.file c₁))
      (absPath cwd fp) = some (Entry.file F) := by
    rw [fsFind_fsSet_ne _ _ (hldS (fp ++ ".patch"))]; exact hlive
  have hlive₂ : fsFind (fsSet fs
      (absPath cwd (pjoin (pjoin PATCHES_DIR fp) (fp ++ ".patch"))) (Entry.file c₂))
      (absPath cwd fp) = some (Entry.file F) := by
    rw [fsFind_fsSet_ne _ _ (hldS (fp ++ ".patch"))]; exact hlive
  have hpatch₁ : readFile cwd (fsSet fs
      (absPath cwd (pjoin (pjoin PATCHES_DIR fp) (fp ++ ".patch"))) (Entry.file c₁))
      (pjoin (pjoin PATCHES_DIR fp) (fp ++ ".patch")) = Except.ok c₁ :=
    readFile_of_file (fsFind_fsSet_self _ _ _)
  have hpatch₂ : readFile cwd (fsSet fs
      (absPath cwd (pjoin (pjoin PATCHES_DIR fp) (fp ++ ".patch"))) (Entry.file c₂))
      (pjoin (pjoin PATCHES_DIR fp) (fp ++ ".patch")) = Except.ok c₂ :=
    readFile_of_file (fsFind_fsSet_self _ _ _)
  have hpd₁ : ∀ t, fsFind (fsSet fs
      (absPath cwd (pjoin (pjoin PATCHES_DIR fp) (fp ++ ".patch"))) (Entry.file c₁))
      (absPath cwd (pjoin (pjoin PATCHES_DIR fp) (fp ++ ".patched"))) ≠
      some (Entry.symlink t) := fun t => by
    rw [fsFind_fsSet_ne _ _ (hSne _ _ (patched_ne_patch fp))]; exact hpd t
  have hpd₂ : ∀ t, fsFind (fsSet fs
      (absPath cwd (pjoin (pjoin PATCHES_DIR fp) (fp ++ ".patch"))) (Entry.file c₂))
      (absPath cwd (pjoin (pjoin PATCHES_DIR fp) (fp ++ ".patched"))) ≠
      some (Entry.symlink t) := fun t => by
    rw [fsFind_fsSet_ne _ _ (hSne _ _ (patched_ne_patch fp))]; exact hpd t
  have hbk₁ : ∀ t, fsFind (fsSet fs
      (absPath cwd (pjoin (pjoin PATCHES_DIR fp) (fp ++ ".patch"))) (Entry.file c₁))
      (absPath cwd (pjoin (pjoin PATCHES_DIR fp) (fp ++ ".original.backup"))) ≠
      some (Entry.symlink t) := fun t => by
    rw [fsFind_fsSet_ne _ _ (hSne _ _ (backup_ne_patch fp))]; exact hbk t
  have hbk₂ : ∀ t, fsFind (fsSet fs
      (absPath cwd (pjoin (pjoin PATCHES_DIR fp) (fp ++ ".patch"))) (Entry.file c₂))
      (absPath cwd (pjoin (pjoin PATCHES_DIR fp) (fp ++ ".original.backup"))) ≠
      some (Entry.symlink t) := fun t => by
    rw [fsFind_fsSet_ne _ _ (hSne _ _ (backup_ne_patch fp))]; exact hbk t
  have hhd : (parsePatch c₁).headD { hunks := [] } =
      (parsePatch c₂).headD { hunks := [] } := headD_congr _ hhead
  cases hap : diffApply F ((parsePatch c₁).headD { hunks := [] }) 3 with
  | none =>
    have he₁ := apply_conflict_eq cwd fp F c₁ _
      (readFile_of_file hlive₁)
      (by rw [hb]; exact hpatch₁) hap
    have he₂ := apply_conflict_eq cwd fp F c₂ _
      (readFile_of_file hlive₂)
      (by rw [hb]; exact hpatch₂) (by rw [← hhd]; exact hap)
    rw [he₁, he₂]
    refine ⟨rfl, ?_⟩
    intro q hq
    rw [fsFind_fsSet_ne _ _ hq, fsFind_fsSet_ne _ _ hq]
  | some R =>
    have he₁ := applyPatch_on_file cwd fp F c₁ R _ hsl hlive₁ hpatch₁ hap hpd₁ hbk₁
    have he₂ := applyPatch_on_file cwd fp F c₂ R _ hsl hlive₂ hpatch₂
      (by rw [← hhd]; exact hap) hpd₂ hbk₂
    rw [he₁, he₂]
    refine ⟨rfl, ?_⟩
    intro q hq
    by_cases hqL : q = absPath cwd fp
    · subst hqL
      rw [fsFind_fsSet_self, fsFind_fsSet_self]
    · rw [fsFind_fsSet_ne _ _ hqL, fsFind_fsSet_ne _ _ hqL,
        fsFind_fsRemove_ne _ hqL, fsFind_fsRemove_ne _ hqL]
      by_cases hqB : q = absPath cwd (pjoin (pjoin PATCHES_DIR fp) (fp ++ ".original.backup"))
      · subst hqB
        rw [fsFind_fsSet_self, fsFind_fsSet_self]
      · rw [fsFind_fsSet_ne _ _ hqB, fsFind_fsSet_ne _ _ hqB]
        by_cases hqP : q = absPath cwd (pjoin (pjoin PATCHES_DIR fp) (fp ++ ".patched"))
        · subst hqP
          rw [fsFind_fsSet_self, fsFind_fsSet_self]
        · rw [fsFind_fsSet_ne _ _ hqP, fsFind_fsSet_ne _ _ hqP,
            fsFind_fsSet_ne _ _ hq, fsFind_fsSet_ne _ _ hq]

/-- C10 witness: a stored document holding two file sections; the outcome at
the live path is the same as for the document holding only the first
section, so the second patch is ignored. -/
theorem C10_witness :
    (applyPatch "/cwd" "a.txt" (fsSet [("/cwd/a.txt", Entry.file "hello")]
      (absPath "/cwd" (pjoin (pjoin PATCHES_DIR "a.txt") ("a.txt" ++ ".patch")))
      (Entry.file "Index: a.txt\n@@ -1,1 +1,1 @@\n-hello\n+world\n"))).2 =
    (applyPatch "/cwd" "a.txt" (fsSet [("/cwd/a.txt", Entry.file "hello")]
      (absPath "/cwd" (pjoin (pjoin PATCHES_DIR "a.txt") ("a.txt" ++ ".patch")))
      (Entry.file ("Index: a.txt\n@@ -1,1 +1,1 @@\n-hello\n+world\n" ++
        "Index: b\n@@ -1,1 +1,1 @@\n-zzz\n+qqq\n")))).2 ∧
    fsFind (applyPatch "/cwd" "a.txt" (fsSet [("/cwd/a.txt", Entry.file "hello")]
      (absPath "/cwd" (pjoin (pjoin PATCHES_DIR "a.txt") ("a.txt" ++ ".patch")))
      (Entry.file "Index: a.txt\n@@ -1,1 +1,1 @@\n-hello\n+world\n"))).1
      (absPath "/cwd" "a.txt") =
    fsFind (applyPatch "/cwd" "a.txt" (fsSet [("/cwd/a.txt", Entry.file "hello")]
      (absPath "/cwd" (pjoin (pjoin PATCHES_DIR "a.txt") ("a.txt" ++ ".patch")))
      (Entry.file ("Index: a.txt\n@@ -1,1 +1,1 @@\n-hello\n+world\n" ++
        "Index: b\n@@ -1,1 +1,1 @@\n-zzz\n+qqq\n")))).1
      (absPath "/cwd" "a.txt") := by
  have h := C10_only_first_patch "/cwd" "a.txt" "hello"
    "Index: a.txt\n@@ -1,1 +1,1 @@\n-hello\n+world\n"
    ("Index: a.txt\n@@ -1,1 +1,1 @@\n-hello\n+world\n" ++
      "Index: b\n@@ -1,1 +1,1 @@\n-zzz\n+qqq\n")
    [("/cwd/a.txt", Entry.file "hello")]
    (by decide) (by decide) (by decide)
    (fun t h => Option.noConfusion h) (fun t h => Option.noConfusion h)
  exact ⟨h.1, h.2 (absPath "/cwd" "a.txt") (by decide)⟩

/-- C1 counterexample: for a tracked file in a subdirectory ("sub/a.txt"),
the full sequence create → edit snapshot → commit → apply runs without any
error, yet the live file path does not resolve to the edited content: the
symbolic link stores the cwd-relative patched path, which POSIX resolves
relative to the link's directory ("/cwd/sub"), so resolution fails
altogether, refuting the round trip as stated for arbitrary files. -/
theorem C1_counterexample :
    (createPatch "/cwd" "sub/a.txt" [("/cwd/sub/a.txt", Entry.file "hello")]).2 = none ∧
    (commitPatch "/cwd" "sub/a.txt"
      (fsSet (createPatch "/cwd" "sub/a.txt" [("/cwd/sub/a.txt", Entry.file "hello")]).1
        (absPath "/cwd" (pjoin (pjoin PATCHES_DIR (basename "sub/a.txt"))
          (basename "sub/a.txt"))) (Entry.file "world"))).2 = none ∧
    (applyPatch "/cwd" "sub/a.txt" (commitPatch "/cwd" "sub/a.txt"
      (fsSet (createPatch "/cwd" "sub/a.txt" [("/cwd/sub/a.txt", Entry.file "hello")]).1
        (absPath "/cwd" (pjoin (pjoin PATCHES_DIR (basename "sub/a.txt"))
          (basename "sub/a.txt"))) (Entry.file "world"))).1).2 = none ∧
    readFile "/cwd" (applyPatch "/cwd" "sub/a.txt" (commitPatch "/cwd" "sub/a.txt"
      (fsSet (createPatch "/cwd" "sub/a.txt" [("/cwd/sub/a.txt", Entry.file "hello")]).1
        (absPath "/cwd" (pjoin (pjoin PATCHES_DIR (basename "sub/a.txt"))
          (basename "sub/a.txt"))) (Entry.file "world"))).1).1 "sub/a.txt" =
      Except.error Err.notFound := by
  decide

/-- C1 (amended): round trip for a file residing in the process working
directory.  For a live file whose path has no directory separator and whose
name has no newline, tracked from a fresh record state, the sequence
`createPatch; (snapshot edited to E); commitPatch; applyPatch` reports no
error at any step and leaves the live file path resolving to content equal
to E, the live file being unchanged between create and apply. -/
theorem C1_round_trip (cwd fp F E : String) (fs : FS)
    (hcwd : strHasPre "/" cwd = true)
    (hsl : ('/' : Char) ∉ fp.data)
    (hnl : ('\n' : Char) ∉ fp.data)
    (hlive : fsFind fs (absPath cwd fp) = some (Entry.file F))
    (h0 : fsFind fs (absPath cwd PATCHES_DIR) = none)
    (h1 : fsFind fs (absPath cwd (pjoin PATCHES_DIR fp)) = none)
    (hS : ∀ S, fsFind fs (absPath cwd (pjoin (pjoin PATCHES_DIR fp) S)) = none) :
    (createPatch cwd fp fs).2 = none ∧
    (commitPatch cwd fp (fsSet (createPatch cwd fp fs).1
      (absPath cwd (pjoin (pjoin PATCHES_DIR fp) fp)) (Entry.file E))).2 = none ∧
    (applyPatch cwd fp (commitPatch cwd fp (fsSet (createPatch cwd fp fs).1
      (absPath cwd (pjoin (pjoin PATCHES_DIR fp) fp)) (Entry.file E))).1).2 = none ∧
    readFile cwd (applyPatch cwd fp (commitPatch cwd fp (fsSet (createPatch cwd fp fs).1
      (absPath cwd (pjoin (pjoin PATCHES_DIR fp) fp)) (Entry.file E))).1).1 fp =
      Except.ok E := by
  have hb : basename fp = fp := basename_no_slash hsl
  have hcne : cwd ≠ "" := ne_empty_of_hasPre_slash hcwd
  have habsL : absPath cwd fp = cwd ++ "/" ++ fp := absPath_rel_of_no_slash cwd hsl
  have habs0 : absPath cwd PATCHES_DIR = cwd ++ "/" ++ PATCHES_DIR := absPath_rel cwd rfl
  have habs1 : absPath cwd (pjoin PATCHES_DIR fp) =
      cwd ++ "/" ++ pjoin PATCHES_DIR fp := absPath_rel cwd rfl
  have habsS : ∀ S : String, absPath cwd (pjoin (pjoin PATCHES_DIR fp) S) =
      cwd ++ "/" ++ pjoin (pjoin PATCHES_DIR fp) S := fun S => absPath_rel cwd rfl
  have hldS : ∀ S, absPath cwd fp ≠ absPath cwd (pjoin (pjoin PATCHES_DIR fp) S) := by
    intro S; rw [habsL, habsS]; exact liveKey_ne_recKey cwd fp S
  have hld0 : absPath cwd fp ≠ absPath cwd PATCHES_DIR := fun he => by
    rw [he, h0] at hlive; exact Option.noConfusion hlive
  have hld1 : absPath cwd fp ≠ absPath cwd (pjoin PATCHES_DIR fp) := by
    rw [habsL, habs1]; exact liveKey_ne_dir1Key cwd fp
  have hrd0 : ∀ S, absPath cwd (pjoin (pjoin PATCHES_DIR fp) S) ≠
      absPath cwd PATCHES_DIR := by
    intro S; rw [habsS, habs0]; exact recKey_ne_dir0Key cwd fp S
  have hrd1 : ∀ S, absPath cwd (pjoin (pjoin PATCHES_DIR fp) S) ≠
      absPath cwd (pjoin PATCHES_DIR fp) := by
    intro S; rw [habsS, habs1]; exact recKey_ne_dir1Key cwd fp S
  have hd10 : absPath cwd (pjoin PATCHES_DIR fp) ≠ absPath cwd PATCHES_DIR := by
    rw [habs1, habs0]; exact dir1Key_ne_dir0Key cwd fp
  have hSne : ∀ S₁ S₂ : String, S₁ ≠ S₂ →
      absPath cwd (pjoin (pjoin PATCHES_DIR fp) S₁) ≠
      absPath cwd (pjoin (pjoin PATCHES_DIR fp) S₂) := by
    intro S₁ S₂ h
    rw [habsS, habsS]; exact recKey_ne_recKey cwd fp h
  -- the create transition
  have hens : ensurePatchesDir cwd fs = fsSet fs (absPath cwd PATCHES_DIR) Entry.dir := by
    unfold ensurePatchesDir
    rw [mkdirFs_of_none h0]
  have hm1 : mkdirFs cwd (fsSet fs (absPath cwd PATCHES_DIR) Entry.dir)
      (pjoin PATCHES_DIR fp) =
      Except.ok (fsSet (fsSet fs (absPath cwd PATCHES_DIR) Entry.dir)
        (absPath cwd (pjoin PATCHES_DIR fp)) Entry.dir) :=
    mkdirFs_of_none (by rw [fsFind_fsSet_ne _ _ hd10]; exact h1)
  have habs2 : absPath cwd (absPath cwd fp) = absPath cwd fp := by
    rw [habsL]
    exact absPath_abs cwd (hasPre_slash_append fp (hasPre_slash_append "/" hcwd))
  have hrf : readFile cwd (fsSet (fsSet fs (absPath cwd PATCHES_DIR) Entry.dir)
      (absPath cwd (pjoin PATCHES_DIR fp)) Entry.dir) (absPath cwd fp) =
      Except.ok F := by
    apply readFile_of_file
    rw [habs2, fsFind_fsSet_ne _ _ hld1, fsFind_fsSet_ne _ _ hld0]
    exact hlive
  have hwc : writeFile cwd (fsSet (fsSet fs (absPath cwd PATCHES_DIR) Entry.dir)
      (absPath cwd (pjoin PATCHES_DIR fp)) Entry.dir)
      (pjoin (pjoin PATCHES_DIR fp) fp) F =
      fsSet (fsSet (fsSet fs (absPath cwd PATCHES_DIR) Entry.dir)
        (absPath cwd (pjoin PATCHES_DIR fp)) Entry.dir)
        (absPath cwd (pjoin (pjoin PATCHES_DIR fp) fp)) (Entry.file F) :=
    writeFile_of_not_symlink F (fun t => by
      rw [fsFind_fsSet_ne _ _ (hrd1 fp), fsFind_fsSet_ne _ _ (hrd0 fp), hS fp]
      simp)
  have hwo : writeFile cwd (fsSet (fsSet (fsSet fs (absPath cwd PATCHES_DIR) Entry.dir)
      (absPath cwd (pjoin PATCHES_DIR fp)) Entry.dir)
      (absPath cwd (pjoin (pjoin PATCHES_DIR fp) fp)) (Entry.file F))
      (pjoin (pjoin PATCHES_DIR fp) "original-path.txt") (absPath cwd fp) =
      fsSet (fsSet (fsSet (fsSet fs (absPath cwd PATCHES_DIR) Entry.dir)
        (absPath cwd (pjoin PATCHES_DIR fp)) Entry.dir)
        (absPath cwd (pjoin (pjoin PATCHES_DIR fp) fp)) (Entry.file F))
        (absPath cwd (pjoin (pjoin PATCHES_DIR fp) "original-path.txt"))
        (Entry.file (absPath cwd fp)) :=
    writeFile_of_not_symlink _ (fun t => by
      by_cases ho : absPath cwd (pjoin (pjoin PATCHES_DIR fp) "original-path.txt") =
          absPath cwd (pjoin (pjoin PATCHES_DIR fp) fp)
      · rw [ho, fsFind_fsSet_self]; simp
      · rw [fsFind_fsSet_ne _ _ ho, fsFind_fsSet_ne _ _ (hrd1 _),
          fsFind_fsSet_ne _ _ (hrd0 _), hS]
        simp)
  have hcreate : createPatch cwd fp fs =
      (fsSet (fsSet (fsSet (fsSet fs (absPath cwd PATCHES_DIR) Entry.dir)
        (absPath cwd (pjoin PATCHES_DIR fp)) Entry.dir)
        (absPath cwd (pjoin (pjoin PATCHES_DIR fp) fp)) (Entry.file F))
        (absPath cwd (pjoin (pjoin PATCHES_DIR fp) "original-path.txt"))
        (Entry.file (absPath cwd fp)), none) := by
    simp only [createPatch, hb, hens, hm1, hrf, hwc, hwo]
  -- find facts about the created record state
  have hA_live : fsFind (createPatch cwd fp fs).1 (absPath cwd fp) =
      some (Entry.file F) := by
    rw [hcreate]
    rw [fsFind_fsSet_ne _ _ (hldS "original-path.txt"), fsFind_fsSet_ne _ _ (hldS fp),
      fsFind_fsSet_ne _ _ hld1, fsFind_fsSet_ne _ _ hld0]
    exact hlive
  have hA_rec : ∀ S, S ≠ fp → S ≠ "original-path.txt" →
      fsFind (createPatch cwd fp fs).1
        (absPath cwd (pjoin (pjoin PATCHES_DIR fp) S)) = none := by
    intro S hc ho
    rw [hcreate]
    rw [fsFind_fsSet_ne _ _ (hSne _ _ ho), fsFind_fsSet_ne _ _ (hSne _ _ hc),
      fsFind_fsSet_ne _ _ (hrd1 _), fsFind_fsSet_ne _ _ (hrd0 _)]
    exact hS S
  -- the edited snapshot state and the commit transition
  have hfB_live : fsFind (fsSet (createPatch cwd fp fs).1
      (absPath cwd (pjoin (pjoin PATCHES_DIR fp) fp)) (Entry.file E))
      (absPath cwd fp) = some (Entry.file F) := by
    rw [fsFind_fsSet_ne _ _ (hldS fp)]
    exact hA_live
  have hrB_live : readFile cwd (fsSet (createPatch cwd fp fs).1
      (absPath cwd (pjoin (pjoin PATCHES_DIR fp) fp)) (Entry.file E)) fp =
      Except.ok F := readFile_of_file hfB_live
  have hrB_copy : readFile cwd (fsSet (createPatch cwd fp fs).1
      (absPath cwd (pjoin (pjoin PATCHES_DIR fp) fp)) (Entry.file E))
      (pjoin (pjoin PATCHES_DIR fp) fp) = Except.ok E :=
    readFile_of_file (fsFind_fsSet_self _ _ _)
  have hwp : writeFile cwd (fsSet (createPatch cwd fp fs).1
      (absPath cwd (pjoin (pjoin PATCHES_DIR fp) fp)) (Entry.file E))
      (pjoin (pjoin PATCHES_DIR fp) (fp ++ ".patch"))
      (diffCreate fp F E "original" "modified") =
      fsSet (fsSet (createPatch cwd fp fs).1
        (absPath cwd (pjoin (pjoin PATCHES_DIR fp) fp)) (Entry.file E))
        (absPath cwd (pjoin (pjoin PATCHES_DIR fp) (fp ++ ".patch")))
        (Entry.file (diffCreate fp F E "original" "modified")) :=
    writeFile_of_not_symlink _ (fun t => by
      rw [fsFind_fsSet_ne _ _ (hSne _ _ (patch_ne_copy fp)),
        hA_rec _ (patch_ne_copy fp) (patch_ne_orig fp)]
      simp)
  have hup : unlinkFs cwd (fsSet (fsSet (createPatch cwd fp fs).1
      (absPath cwd (pjoin (pjoin PATCHES_DIR fp) fp)) (Entry.file E))
      (absPath cwd (pjoin (pjoin PATCHES_DIR fp) (fp ++ ".patch")))
      (Entry.file (diffCreate fp F E "original" "modified")))
      (pjoin (pjoin PATCHES_DIR fp) fp) =
      Except.ok (fsRemove (fsSet (fsSet (createPatch cwd fp fs).1
        (absPath cwd (pjoin (pjoin PATCHES_DIR fp) fp)) (Entry.file E))
        (absPath cwd (pjoin (pjoin PATCHES_DIR fp) (fp ++ ".patch")))
        (Entry.file (diffCreate fp F E "original" "modified")))
        (absPath cwd (pjoin (pjoin PATCHES_DIR fp) fp))) :=
    unlinkFs_of_file (by
      rw [fsFind_fsSet_ne _ _ (hSne _ _ (Ne.symm (patch_ne_copy fp)))]
      exact fsFind_fsSet_self _ _ _)
  have hcommit : commitPatch cwd fp (fsSet (createPatch cwd fp fs).1
      (absPath cwd (pjoin (pjoin PATCHES_DIR fp) fp)) (Entry.file E)) =
      (fsRemove (fsSet (fsSet (createPatch cwd fp fs).1
        (absPath cwd (pjoin (pjoin PATCHES_DIR fp) fp)) (Entry.file E))
        (absPath cwd (pjoin (pjoin PATCHES_DIR fp) (fp ++ ".patch")))
        (Entry.file (diffCreate fp F E "original" "modified")))
        (absPath cwd (pjoin (pjoin PATCHES_DIR fp) fp)), none) := by
    simp only [commitPatch, hb, hrB_live, hrB_copy, hwp, hup]
  -- find facts about the committed state
  have hC_live : fsFind (commitPatch cwd fp (fsSet (createPatch cwd fp fs).1
      (absPath cwd (pjoin (pjoin PATCHES_DIR fp) fp)) (Entry.file E))).1
      (absPath cwd fp) = some (Entry.file F) := by
    rw [hcommit]
    rw [fsFind_fsRemove_ne _ (hldS fp), fsFind_fsSet_ne _ _ (hldS (fp ++ ".patch"))]
    exact hfB_live
  have hC_patch : readFile cwd (commitPatch cwd fp (fsSet (createPatch cwd fp fs).1
      (absPath cwd (pjoin (pjoin PATCHES_DIR fp) fp)) (Entry.file E))).1
      (pjoin (pjoin PATCHES_DIR fp) (fp ++ ".patch")) =
      Except.ok (diffCreate fp F E "original" "modified") := by
    apply readFile_of_file
    rw [hcommit]
    rw [fsFind_fsRemove_ne _ (hSne _ _ (patch_ne_copy fp))]
    exact fsFind_fsSet_self _ _ _
  have hC_pd : ∀ t, fsFind (commitPatch cwd fp (fsSet (createPatch cwd fp fs).1
      (absPath cwd (pjoin (pjoin PATCHES_DIR fp) fp)) (Entry.file E))).1
      (absPath cwd (pjoin (pjoin PATCHES_DIR fp) (fp ++ ".patched"))) ≠
      some (Entry.symlink t) := fun t => by
    rw [hcommit]
    rw [fsFind_fsRemove_ne _ (hSne _ _ (patched_ne_copy fp)),
      fsFind_fsSet_ne _ _ (hSne _ _ (patched_ne_patch fp)),
      fsFind_fsSet_ne _ _ (hSne _ _ (patched_ne_copy fp)),
      hA_rec _ (patched_ne_copy fp) (patched_ne_orig fp)]
    simp
  have hC_bk : ∀ t, fsFind (commitPatch cwd fp (fsSet (createPatch cwd fp fs).1
      (absPath cwd (pjoin (pjoin PATCHES_DIR fp) fp)) (Entry.file E))).1
      (absPath cwd (pjoin (pjoin PATCHES_DIR fp) (fp ++ ".original.backup"))) ≠
      some (Entry.symlink t) := fun t => by
    rw [hcommit]
    rw [fsFind_fsRemove_ne _ (hSne _ _ (backup_ne_copy fp)),
      fsFind_fsSet_ne _ _ (hSne _ _ (backup_ne_patch fp)),
      fsFind_fsSet_ne _ _ (hSne _ _ (backup_ne_copy fp)),
      hA_rec _ (backup_ne_copy fp) (backup_ne_orig fp)]
    simp
  have happ : diffApply F ((parsePatch (diffCreate fp F E "original" "modified")).headD
      { hunks := [] }) 3 = some E := diffApply_parse_diffCreate fp F E hnl
  have happly := applyPatch_on_file cwd fp F
    (diffCreate fp F E "original" "modified") E
    (commitPatch cwd fp (fsSet (createPatch cwd fp fs).1
      (absPath cwd (pjoin (pjoin PATCHES_DIR fp) fp)) (Entry.file E))).1
    hsl hC_live hC_patch happ hC_pd hC_bk
  have hres : resolveLink (absPath cwd fp)
      (pjoin (pjoin PATCHES_DIR fp) (fp ++ ".patched")) =
      absPath cwd (pjoin (pjoin PATCHES_DIR fp) (fp ++ ".patched")) := by
    rw [habsL, resolveLink_rel cwd fp
      (pjoin (pjoin PATCHES_DIR fp) (fp ++ ".patched")) hsl hcne rfl, habsS]
  refine ⟨by rw [hcreate], by rw [hcommit], by rw [happly], ?_⟩
  have hbkpd : absPath cwd (pjoin (pjoin PATCHES_DIR fp) (fp ++ ".original.backup")) ≠
      absPath cwd (pjoin (pjoin PATCHES_DIR fp) (fp ++ ".patched")) :=
    hSne _ _ (backup_ne_patched fp)
  have hfinal_live : fsFind (applyPatch cwd fp (commitPatch cwd fp
      (fsSet (createPatch cwd fp fs).1
        (absPath cwd (pjoin (pjoin PATCHES_DIR fp) fp)) (Entry.file E))).1).1
      (absPath cwd fp) =
      some (Entry.symlink (pjoin (pjoin PATCHES_DIR fp) (fp ++ ".patched"))) := by
    rw [happly]
    exact fsFind_fsSet_self _ _ _
  have hfinal_pd : fsFind (applyPatch cwd fp (commitPatch cwd fp
      (fsSet (createPatch cwd fp fs).1
        (absPath cwd (pjoin (pjoin PATCHES_DIR fp) fp)) (Entry.file E))).1).1
      (absPath cwd (pjoin (pjoin PATCHES_DIR fp) (fp ++ ".patched"))) =
      some (Entry.file E) := by
    rw [happly]
    rw [fsFind_fsSet_ne _ _ (Ne.symm (hldS (fp ++ ".patched"))),
      fsFind_fsRemove_ne _ (Ne.symm (hldS (fp ++ ".patched"))),
      fsFind_fsSet_ne _ _ (Ne.symm hbkpd)]
    exact fsFind_fsSet_self _ _ _
  exact readFile_of_symlink hfinal_live (by rw [hres]; exact hfinal_pd)

/-- C1 witness: the spec's concrete scenario in the working directory:
"a.txt" containing "hello\n", snapshot edited to "hello world\n"; after
create, commit and apply the live path resolves to "hello world\n". -/
theorem C1_witness :
    (createPatch "/cwd" "a.txt" [("/cwd/a.txt", Entry.file "hello\n")]).2 = none ∧
    (commitPatch "/cwd" "a.txt"
      (fsSet (createPatch "/cwd" "a.txt" [("/cwd/a.txt", Entry.file "hello\n")]).1
        (absPath "/cwd" (pjoin (pjoin PATCHES_DIR "a.txt") "a.txt"))
        (Entry.file "hello world\n"))).2 = none ∧
    (applyPatch "/cwd" "a.txt" (commitPatch "/cwd" "a.txt"
      (fsSet (createPatch "/cwd" "a.txt" [("/cwd/a.txt", Entry.file "hello\n")]).1
        (absPath "/cwd" (pjoin (pjoin PATCHES_DIR "a.txt") "a.txt"))
        (Entry.file "hello world\n"))).1).2 = none ∧
    readFile "/cwd" (applyPatch "/cwd" "a.txt" (commitPatch "/cwd" "a.txt"
      (fsSet (createPatch "/cwd" "a.txt" [("/cwd/a.txt", Entry.file "hello\n")]).1
        (absPath "/cwd" (pjoin (pjoin PATCHES_DIR "a.txt") "a.txt"))
        (Entry.file "hello world\n"))).1).1 "a.txt" = Except.ok "hello world\n" :=
  C1_round_trip "/cwd" "a.txt" "hello\n" "hello world\n"
    [("/cwd/a.txt", Entry.file "hello\n")]
    (by decide) (by decide) (by decide) (by decide) (by decide) (by decide)
    (fun S => by
      rw [absPath_rel "/cwd"
        (show strHasPre "/" (pjoin (pjoin PATCHES_DIR "a.txt") S) = false from rfl)]
      simp only [fsFind]
      rw [if_neg (show ¬("/cwd/a.txt" : String) =
        "/cwd" ++ "/" ++ pjoin (pjoin PATCHES_DIR "a.txt") S from
        fun h => liveKey_ne_recKey "/cwd" "a.txt" S h)])

end FilePatch
